import Mathlib

/-!
# Brownian dynamics reference integrator

A shallow embedding of `ReferenceBrownianDynamics.cpp` (constructor, `getFriction`, `update`)
and theorems about it.

Conventions of the embedding.

* `RealOpenMM` values are exact numbers of an ordered field `R`, or `undef` when the operation
  that produced them has no value in exact arithmetic (a division by zero, the square root of a
  negative number).  Arithmetic is strict in `undef`, and a comparison with `undef` is false.
  Rounding, overflow and underflow of machine numbers are not modelled.
* `std::vector` is a `List`; an access outside the vector has no defined behaviour in the source
  and makes the embedded function return `none`.
* The random source, the diagnostic sink and the caller's arrays are passed explicitly.
-/

namespace OpenMM

/-! ## Numbers -/

/-- A value of the source type `RealOpenMM`: an exact number, or `undef`. -/
inductive RealOpenMM (R : Type) where
  | val (x : R) : RealOpenMM R
  | undef : RealOpenMM R
deriving DecidableEq, Repr

namespace RealOpenMM

variable {R : Type} [LinearOrderedField R]

/-- The source operator `+`. -/
def add : RealOpenMM R → RealOpenMM R → RealOpenMM R
  | val x, val y => val (x + y)
  | _, _ => undef

/-- The source operator `-`. -/
def sub : RealOpenMM R → RealOpenMM R → RealOpenMM R
  | val x, val y => val (x - y)
  | _, _ => undef

/-- The source operator `*`. -/
def mul : RealOpenMM R → RealOpenMM R → RealOpenMM R
  | val x, val y => val (x * y)
  | _, _ => undef

/-- The source operator `/`: no value when the divisor is zero. -/
def div : RealOpenMM R → RealOpenMM R → RealOpenMM R
  | val x, val y => if y = 0 then undef else val (x / y)
  | _, _ => undef

/-- The source comparison `<=`: false when an operand has no value. -/
def le : RealOpenMM R → RealOpenMM R → Bool
  | val x, val y => decide (x ≤ y)
  | _, _ => false

/-- The library function `sqrt`, given the square root `sqrt` of `R` on non-negative numbers:
no value on a negative number. -/
def sqrtWith (sqrt : R → R) : RealOpenMM R → RealOpenMM R
  | val x => if x < 0 then undef else val (sqrt x)
  | undef => undef

instance : Add (RealOpenMM R) := ⟨add⟩
instance : Sub (RealOpenMM R) := ⟨sub⟩
instance : Mul (RealOpenMM R) := ⟨mul⟩
instance : Div (RealOpenMM R) := ⟨div⟩

/-- The literal `0.0`. -/
def zero : RealOpenMM R := val 0

/-- The literal `1.0`. -/
def one : RealOpenMM R := val 1

/-- The literal `2.0`. -/
def two : RealOpenMM R := val 2

end RealOpenMM

open RealOpenMM

/-- Modelled from the spec: the macro `SQRT` of the absent `SimTKOpenMMRealType.h`, which the
spec writes `sqrt(inverseMass[i])`: the square root at the precision of `RealOpenMM`. -/
def SQRT {R : Type} [LinearOrderedField R] (sqrt : R → R) (x : RealOpenMM R) : RealOpenMM R :=
  sqrtWith sqrt x

/-! ## Vectors -/

/-- The source type `RealVec`: three components, indexed `0..2`. -/
abbrev RealVec (R : Type) := Fin 3 → RealOpenMM R

/-- Read `v[j]`; `none` when `j` is outside `0..2`. -/
def RealVec.read {R : Type} (v : RealVec R) (j : Nat) : Option (RealOpenMM R) :=
  if h : j < 3 then some (v ⟨j, h⟩) else none

/-- Assign `v[j] = a`; `none` when `j` is outside `0..2`. -/
def RealVec.write {R : Type} (v : RealVec R) (j : Nat) (a : RealOpenMM R) : Option (RealVec R) :=
  if h : j < 3 then some (Function.update v ⟨j, h⟩ a) else none

/-- Read `xs[i]` of a `std::vector`; `none` when `i` is out of range. -/
def vectorRead {α : Type} (xs : List α) (i : Nat) : Option α :=
  xs[i]?

/-- Assign `xs[i] = a` of a `std::vector`; `none` when `i` is out of range. -/
def vectorWrite {α : Type} (xs : List α) (i : Nat) (a : α) : Option (List α) :=
  if i < xs.length then some (xs.set i a) else none

/-- The loop `for (int i = 0; i < n; i++) body(i)`, threading the mutable state. -/
def forLoop {σ : Type} (body : Nat → σ → Option σ) : Nat → σ → Option σ
  | 0, s => some s
  | n + 1, s => (forLoop body n s).bind (body n)

/-! ## Collaborators that are not part of the translated file -/

/-- One item inserted into a `std::stringstream` with `<<`. -/
inductive MessageItem (R : Type) where
  | text (s : String) : MessageItem R
  | int (n : Nat) : MessageItem R
  | real (x : RealOpenMM R) : MessageItem R
  | endl : MessageItem R
deriving DecidableEq, Repr

/-- A `std::stringstream`: the items inserted so far. -/
abbrev Message (R : Type) := List (MessageItem R)

/-- The diagnostic sink: the messages reported so far, oldest first. -/
abbrev Log (R : Type) := List (Message R)

/-- Modelled from the spec: `SimTKOpenMMLog::printError` of the absent `SimTKOpenMMLog.h`, the
diagnostic sink, "a capability for reporting human-readable warnings/errors ... without halting
execution": the message is appended to the log. -/
def printError {R : Type} (message : Message R) (log : Log R) : Log R :=
  log ++ [message]

/-- The random source as an explicit stream with a read position. -/
structure RandomSource (R : Type) where
  stream : Nat → RealOpenMM R
  position : Nat

/-- Modelled from the spec: `SimTKOpenMMUtilities::getNormallyDistributedRandomNumber` of the
absent `SimTKOpenMMUtilities.h`, "a capability providing next standard-normal sample": it
returns the sample at the read position and advances the position by one. -/
def getNormallyDistributedRandomNumber {R : Type} (g : RandomSource R) :
    RealOpenMM R × RandomSource R :=
  (g.stream g.position, { g with position := g.position + 1 })

/-- Modelled from the spec: the constraint projector, `ReferenceConstraintAlgorithm::apply` of
the absent `ReferenceConstraintAlgorithm.h`, "`apply(particleCount, referencePositions,
trialPositions, inverseMasses)` adjusts trialPositions in place": a function returning the
adjusted trial positions. -/
abbrev ReferenceConstraintAlgorithm (R : Type) :=
  Nat → List (RealVec R) → List (RealVec R) → List (RealOpenMM R) → List (RealVec R)

/-- Modelled from the spec: the state of the absent base class `ReferenceDynamics`, the scalars
`particleCount`, `timeStep` (here `deltaT`), `temperature`, the step counter (here `timeStep`,
read by `getTimeStep`) and the optional constraint projector. -/
structure ReferenceDynamics (R : Type) where
  numberOfAtoms : Nat
  deltaT : RealOpenMM R
  temperature : RealOpenMM R
  timeStep : Nat
  referenceConstraintAlgorithm : Option (ReferenceConstraintAlgorithm R)

namespace ReferenceDynamics

variable {R : Type}

/-- Modelled from the spec: the constructor of the absent base class; the step counter "starts
at 0" and no constraint projector is attached. -/
def ctor (numberOfAtoms : Nat) (deltaT temperature : RealOpenMM R) : ReferenceDynamics R :=
  { numberOfAtoms := numberOfAtoms, deltaT := deltaT, temperature := temperature,
    timeStep := 0, referenceConstraintAlgorithm := none }

/-- Modelled from the spec: `getTimeStep` of the absent base class, the step counter. -/
def getTimeStep (d : ReferenceDynamics R) : Nat := d.timeStep

/-- Modelled from the spec: `getDeltaT` of the absent base class, the time step. -/
def getDeltaT (d : ReferenceDynamics R) : RealOpenMM R := d.deltaT

/-- Modelled from the spec: `getTemperature` of the absent base class. -/
def getTemperature (d : ReferenceDynamics R) : RealOpenMM R := d.temperature

/-- Modelled from the spec: `getReferenceConstraintAlgorithm` of the absent base class, the
attached constraint projector if there is one. -/
def getReferenceConstraintAlgorithm (d : ReferenceDynamics R) :
    Option (ReferenceConstraintAlgorithm R) :=
  d.referenceConstraintAlgorithm

/-- Modelled from the spec: `setReferenceConstraintAlgorithm` of the absent base class, which
attaches a constraint projector. -/
def setReferenceConstraintAlgorithm (d : ReferenceDynamics R)
    (p : Option (ReferenceConstraintAlgorithm R)) : ReferenceDynamics R :=
  { d with referenceConstraintAlgorithm := p }

/-- Modelled from the spec: `incrementTimeStep` of the absent base class, "increment the step
counter by exactly 1". -/
def incrementTimeStep (d : ReferenceDynamics R) : ReferenceDynamics R :=
  { d with timeStep := d.timeStep + 1 }

/-- Modelled from the spec: `ReferenceDynamics::DefaultReturn` of the absent base class, the
"success indicator" returned by `update`. -/
def DefaultReturn : Int := 0

end ReferenceDynamics

/-! ## The integrator -/

/-- The class `ReferenceBrownianDynamics`: the base class state, the friction coefficient, the
trial-position buffer `xPrime` and the inverse-mass table `inverseMasses`. -/
structure ReferenceBrownianDynamics (R : Type) extends ReferenceDynamics R where
  friction : RealOpenMM R
  xPrime : List (RealVec R)
  inverseMasses : List (RealOpenMM R)

/-- What `update` works on besides the integrator: the caller's four arrays, the random source
and the diagnostic sink. -/
structure Caller (R : Type) where
  atomCoordinates : List (RealVec R)
  velocities : List (RealVec R)
  forces : List (RealVec R)
  masses : List (RealOpenMM R)
  random : RandomSource R
  log : Log R

/-- The mutable state of the mass loop of `update`: the message, the error count and the
inverse-mass table. -/
structure MassLoopState (R : Type) where
  message : Message R
  errors : Nat
  inverseMasses : List (RealOpenMM R)

/-- The mutable state of the trial-position loop of `update`. -/
structure TrialLoopState (R : Type) where
  xPrime : List (RealVec R)
  random : RandomSource R

/-- The mutable state of the commit loop of `update`. -/
structure CommitLoopState (R : Type) where
  atomCoordinates : List (RealVec R)
  velocities : List (RealVec R)

/-- The result of `update`: the returned `int`, the integrator and the caller's side. -/
structure UpdateResult (R : Type) where
  returnValue : Int
  dynamics : ReferenceBrownianDynamics R
  caller : Caller R

namespace ReferenceBrownianDynamics

variable {R : Type} [LinearOrderedField R]

/-- The constructor `ReferenceBrownianDynamics::ReferenceBrownianDynamics` (lines 49-75); it
returns the integrator and the diagnostic sink. `resize` fills both buffers with zeros. -/
def ctor (numberOfAtoms : Nat) (deltaT friction temperature : RealOpenMM R) (log : Log R) :
    ReferenceBrownianDynamics R × Log R :=
  let base := ReferenceDynamics.ctor numberOfAtoms deltaT temperature
  let methodName := "\nReferenceBrownianDynamics::ReferenceBrownianDynamics"
  let this0 : ReferenceBrownianDynamics R :=
    { toReferenceDynamics := base, friction := friction, xPrime := [], inverseMasses := [] }
  let (this1, log1) :=
    if RealOpenMM.le friction zero then
      let message : Message R :=
        [.text methodName, .text (" input frction value="), .real friction,
         .text (" is invalid -- setting to 1.")]
      ({ this0 with friction := one }, printError message log)
    else (this0, log)
  ({ this1 with
      xPrime := List.replicate numberOfAtoms (fun _ => zero)
      inverseMasses := List.replicate numberOfAtoms zero }, log1)

/-- The member function `getFriction` (lines 101-110). -/
def getFriction (self : ReferenceBrownianDynamics R) : RealOpenMM R :=
  self.friction

/-- The scalar `noiseAmplitude` of `update` (line 168). `sqrt` is the square root of `R` and
`BOLTZ` the Boltzmann constant of the absent `SimTKOpenMMRealType.h`. -/
def noiseAmplitude (sqrt : R → R) (BOLTZ : RealOpenMM R) (self : ReferenceBrownianDynamics R) :
    RealOpenMM R :=
  sqrtWith sqrt (two * BOLTZ * self.getTemperature * self.getDeltaT / self.getFriction)

/-- The scalar `forceScale` of `update` (line 169). -/
def forceScale (self : ReferenceBrownianDynamics R) : RealOpenMM R :=
  self.getDeltaT / self.getFriction

/-- The scalar `velocityScale` of `update` (line 181). -/
def velocityScale (self : ReferenceBrownianDynamics R) : RealOpenMM R :=
  one / self.getDeltaT

/-- The body of the mass loop of `update` (lines 151-156). -/
def massLoopBody (masses : List (RealOpenMM R)) (ii : Nat) (st : MassLoopState R) :
    Option (MassLoopState R) := do
  let m ← vectorRead masses ii
  if RealOpenMM.le m zero then
    pure { st with
      message := st.message ++
        [.text ("mass at atom index="), .int ii, .text (" ("), .real m, .text (") is <= 0"), .endl]
      errors := st.errors + 1 }
  else
    let inverseMasses ← vectorWrite st.inverseMasses ii (one / m)
    pure { st with inverseMasses := inverseMasses }

/-- The body of the inner trial-position loop of `update` (line 172), for particle `i` and
axis `j`. -/
def trialLoopBody (sqrt : R → R) (forceScale noiseAmplitude : RealOpenMM R)
    (atomCoordinates forces : List (RealVec R)) (inverseMasses : List (RealOpenMM R))
    (i j : Nat) (st : TrialLoopState R) : Option (TrialLoopState R) := do
  let ci ← vectorRead atomCoordinates i
  let cij ← ci.read j
  let im ← vectorRead inverseMasses i
  let fi ← vectorRead forces i
  let fij ← fi.read j
  let (z, random) := getNormallyDistributedRandomNumber st.random
  let xi ← vectorRead st.xPrime i
  let xi1 ← xi.write j (cij + forceScale * im * fij + noiseAmplitude * SQRT sqrt im * z)
  let xPrime ← vectorWrite st.xPrime i xi1
  pure { xPrime := xPrime, random := random }

/-- The body of the inner commit loop of `update` (lines 184-185), for particle `i` and
axis `j`. -/
def commitLoopBody (velocityScale : RealOpenMM R) (xPrime : List (RealVec R))
    (i j : Nat) (st : CommitLoopState R) : Option (CommitLoopState R) := do
  let xi ← vectorRead xPrime i
  let xij ← xi.read j
  let ci ← vectorRead st.atomCoordinates i
  let cij ← ci.read j
  let vi ← vectorRead st.velocities i
  let vi1 ← vi.write j (velocityScale * (xij - cij))
  let velocities ← vectorWrite st.velocities i vi1
  let ci1 ← ci.write j xij
  let atomCoordinates ← vectorWrite st.atomCoordinates i ci1
  pure { atomCoordinates := atomCoordinates, velocities := velocities }

/-- The member function `update` (lines 127-193); `none` when an access is out of range. -/
def update (sqrt : R → R) (BOLTZ : RealOpenMM R) (self : ReferenceBrownianDynamics R)
    (numberOfAtoms : Nat) (c : Caller R) : Option (UpdateResult R) := do
  let methodName := "\nReferenceBrownianDynamics::update"
  -- first-time-through initialization
  let (inverseMasses, log) ←
    if self.getTimeStep = 0 then do
      let st ← forLoop (massLoopBody c.masses) numberOfAtoms
        { message := [.text methodName], errors := 0, inverseMasses := self.inverseMasses }
      if st.errors ≠ 0 then
        pure (st.inverseMasses, printError st.message c.log)
      else
        pure (st.inverseMasses, c.log)
    else
      pure (self.inverseMasses, c.log)
  -- Perform the integration.
  let noiseAmplitude := self.noiseAmplitude sqrt BOLTZ
  let forceScale := self.forceScale
  let trial ← forLoop
    (fun i => forLoop
      (trialLoopBody sqrt forceScale noiseAmplitude c.atomCoordinates c.forces inverseMasses i) 3)
    numberOfAtoms { xPrime := self.xPrime, random := c.random }
  let xPrime :=
    match self.getReferenceConstraintAlgorithm with
    | some referenceConstraintAlgorithm =>
        referenceConstraintAlgorithm numberOfAtoms c.atomCoordinates trial.xPrime inverseMasses
    | none => trial.xPrime
  -- Update the positions and velocities.
  let velocityScale := self.velocityScale
  let commit ← forLoop
    (fun i => forLoop (commitLoopBody velocityScale xPrime i) 3)
    numberOfAtoms { atomCoordinates := c.atomCoordinates, velocities := c.velocities }
  let base := self.toReferenceDynamics.incrementTimeStep
  pure
    { returnValue := ReferenceDynamics.DefaultReturn
      dynamics := { toReferenceDynamics := base, friction := self.friction, xPrime := xPrime,
                    inverseMasses := inverseMasses }
      caller := { atomCoordinates := commit.atomCoordinates, velocities := commit.velocities,
                  forces := c.forces, masses := c.masses, random := trial.random, log := log } }

end ReferenceBrownianDynamics

/-! ## Closed forms of the loops of `update` -/

/-- The list `xs` after its first `k` entries were rewritten, entry `i` to `g i xs[i]`. -/
def rewritePrefix {α : Type} (g : Nat → α → α) (k : Nat) (xs : List α) : List α :=
  xs.mapIdx (fun i x => if i < k then g i x else x)

namespace ReferenceBrownianDynamics
variable {R : Type} [LinearOrderedField R]

/-- The test `masses[ii] <= zero` of the mass loop. -/
def massInvalid (masses : List (RealOpenMM R)) (ii : Nat) : Bool :=
  RealOpenMM.le (masses.getD ii undef) zero

/-- The inverse-mass entry `ii` after iteration `ii` of the mass loop, `old` being the entry
before. -/
def invertedMass (masses : List (RealOpenMM R)) (ii : Nat) (old : RealOpenMM R) : RealOpenMM R :=
  if massInvalid masses ii then old else one / masses.getD ii undef

/-- The indices below `n` at which the mass loop reports an error, in increasing order. -/
def massErrors (masses : List (RealOpenMM R)) (n : Nat) : List Nat :=
  (List.range n).filter (massInvalid masses)

/-- What the mass loop inserts into the message for particle `ii`. -/
def massReport (masses : List (RealOpenMM R)) (ii : Nat) : Message R :=
  [.text ("mass at atom index="), .int ii, .text (" ("), .real (masses.getD ii undef),
   .text (") is <= 0"), .endl]

/-- The state of the mass loop after `k` iterations. -/
def massLoopAfter (masses : List (RealOpenMM R)) (st : MassLoopState R) (k : Nat) :
    MassLoopState R :=
  { message := st.message ++ (massErrors masses k).flatMap (massReport masses)
    errors := st.errors + (massErrors masses k).length
    inverseMasses := rewritePrefix (invertedMass masses) k st.inverseMasses }

/-- The trial position of one particle: coordinates `ci`, force `fi`, inverse mass `im`, the
three samples being `stream p`, `stream (p + 1)`, `stream (p + 2)`. -/
def trialVec (sqrt : R → R) (forceScale noiseAmplitude : RealOpenMM R) (ci fi : RealVec R)
    (im : RealOpenMM R) (stream : Nat → RealOpenMM R) (p : Nat) : RealVec R :=
  fun j => ci j + forceScale * im * fi j + noiseAmplitude * SQRT sqrt im * stream (p + j.val)

/-- The velocity of one particle: trial position `xi`, coordinates `ci`. -/
def velocityVec (velocityScale : RealOpenMM R) (xi ci : RealVec R) : RealVec R :=
  fun j => velocityScale * (xi j - ci j)

/-- The trial position of particle `i` in a step that starts with the random source `g`. -/
def trialAt (sqrt : R → R) (forceScale noiseAmplitude : RealOpenMM R)
    (atomCoordinates forces : List (RealVec R)) (inverseMasses : List (RealOpenMM R))
    (g : RandomSource R) (i : Nat) : RealVec R :=
  trialVec sqrt forceScale noiseAmplitude (atomCoordinates.getD i (fun _ => undef))
    (forces.getD i (fun _ => undef)) (inverseMasses.getD i undef) g.stream (g.position + 3 * i)

/-- The state of the trial-position loop after `k` iterations of the outer loop. -/
def trialLoopAfter (sqrt : R → R) (forceScale noiseAmplitude : RealOpenMM R)
    (atomCoordinates forces : List (RealVec R)) (inverseMasses : List (RealOpenMM R))
    (st : TrialLoopState R) (k : Nat) : TrialLoopState R :=
  { xPrime := rewritePrefix
      (fun i _ => trialAt sqrt forceScale noiseAmplitude atomCoordinates forces inverseMasses
        st.random i) k st.xPrime
    random := { stream := st.random.stream, position := st.random.position + 3 * k } }

/-- The state of the commit loop after `k` iterations of the outer loop. -/
def commitLoopAfter (velocityScale : RealOpenMM R) (xPrime : List (RealVec R))
    (st : CommitLoopState R) (k : Nat) : CommitLoopState R :=
  { atomCoordinates := rewritePrefix (fun i _ => xPrime.getD i (fun _ => undef)) k
      st.atomCoordinates
    velocities := rewritePrefix
      (fun i _ => velocityVec velocityScale (xPrime.getD i (fun _ => undef))
        (st.atomCoordinates.getD i (fun _ => undef))) k st.velocities }

/-- The inverse-mass table after `update`. -/
def inverseMassesAfter (self : ReferenceBrownianDynamics R) (numberOfAtoms : Nat)
    (c : Caller R) : List (RealOpenMM R) :=
  if self.getTimeStep = 0 then
    rewritePrefix (invertedMass c.masses) numberOfAtoms self.inverseMasses
  else self.inverseMasses

/-- The message of the mass loop of `update` after `n` iterations. -/
def massMessage (masses : List (RealOpenMM R)) (n : Nat) : Message R :=
  [.text ("\nReferenceBrownianDynamics::update")] ++
    (massErrors masses n).flatMap (massReport masses)

/-- The diagnostic sink after `update`. -/
def logAfter (self : ReferenceBrownianDynamics R) (numberOfAtoms : Nat) (c : Caller R) : Log R :=
  if self.getTimeStep = 0 ∧ (massErrors c.masses numberOfAtoms).length ≠ 0 then
    printError (massMessage c.masses numberOfAtoms) c.log
  else c.log

/-- The buffer `xPrime` after the trial-position loop of `update`. -/
def trialPositions (sqrt : R → R) (BOLTZ : RealOpenMM R) (self : ReferenceBrownianDynamics R)
    (numberOfAtoms : Nat) (c : Caller R) : List (RealVec R) :=
  rewritePrefix
    (fun i _ => trialAt sqrt (forceScale self) (noiseAmplitude sqrt BOLTZ self) c.atomCoordinates
      c.forces (inverseMassesAfter self numberOfAtoms c) c.random i) numberOfAtoms self.xPrime

/-- The buffer `xPrime` after the constraint projector, if one is attached, was applied. -/
def projectedPositions (sqrt : R → R) (BOLTZ : RealOpenMM R) (self : ReferenceBrownianDynamics R)
    (numberOfAtoms : Nat) (c : Caller R) : List (RealVec R) :=
  match self.getReferenceConstraintAlgorithm with
  | some referenceConstraintAlgorithm =>
      referenceConstraintAlgorithm numberOfAtoms c.atomCoordinates
        (trialPositions sqrt BOLTZ self numberOfAtoms c) (inverseMassesAfter self numberOfAtoms c)
  | none => trialPositions sqrt BOLTZ self numberOfAtoms c

/-- The result of `update` when every access is in range. -/
def updateAfter (sqrt : R → R) (BOLTZ : RealOpenMM R) (self : ReferenceBrownianDynamics R)
    (numberOfAtoms : Nat) (c : Caller R) : UpdateResult R :=
  { returnValue := ReferenceDynamics.DefaultReturn
    dynamics :=
      { toReferenceDynamics := self.toReferenceDynamics.incrementTimeStep
        friction := self.friction
        xPrime := projectedPositions sqrt BOLTZ self numberOfAtoms c
        inverseMasses := inverseMassesAfter self numberOfAtoms c }
    caller :=
      { atomCoordinates := rewritePrefix
          (fun i _ => (projectedPositions sqrt BOLTZ self numberOfAtoms c).getD i (fun _ => undef))
          numberOfAtoms c.atomCoordinates
        velocities := rewritePrefix
          (fun i _ => velocityVec (velocityScale self)
            ((projectedPositions sqrt BOLTZ self numberOfAtoms c).getD i (fun _ => undef))
            (c.atomCoordinates.getD i (fun _ => undef))) numberOfAtoms c.velocities
        forces := c.forces
        masses := c.masses
        random := { stream := c.random.stream, position := c.random.position + 3 * numberOfAtoms }
        log := logAfter self numberOfAtoms c } }

end ReferenceBrownianDynamics

/-! ## Contracts and reachable states -/

namespace RealOpenMM

/-- Whether a value is a number. -/
def isVal {R : Type} : RealOpenMM R → Bool
  | val _ => true
  | undef => false

end RealOpenMM

namespace ReferenceBrownianDynamics
variable {R : Type} [LinearOrderedField R]

/-- The caller's contract of `update`: the four arrays and the two buffers of the integrator
hold at least `numberOfAtoms` entries. -/
def Sized (self : ReferenceBrownianDynamics R) (numberOfAtoms : Nat) (c : Caller R) : Prop :=
  numberOfAtoms ≤ c.atomCoordinates.length ∧ numberOfAtoms ≤ c.velocities.length ∧
  numberOfAtoms ≤ c.forces.length ∧ numberOfAtoms ≤ c.masses.length ∧
  numberOfAtoms ≤ self.xPrime.length ∧ numberOfAtoms ≤ self.inverseMasses.length

/-- The attached constraint projector, if there is one, rewrites the trial positions in place:
it returns as many positions as it was given. -/
def ProjectorInPlace (self : ReferenceBrownianDynamics R) : Prop :=
  ∀ p, self.getReferenceConstraintAlgorithm = some p →
    ∀ k a x m, (p k a x m).length = x.length

/-- The integrator with the constraint projector `p` attached (`none` detaches it). -/
def attach (self : ReferenceBrownianDynamics R) (p : Option (ReferenceConstraintAlgorithm R)) :
    ReferenceBrownianDynamics R :=
  { self with toReferenceDynamics := self.toReferenceDynamics.setReferenceConstraintAlgorithm p }

/-- A sequence of `update` calls, each with its own `numberOfAtoms` and caller's side; it
returns the integrator after the last call. -/
def updateSeq (sqrt : R → R) (BOLTZ : RealOpenMM R) :
    ReferenceBrownianDynamics R → List (Nat × Caller R) → Option (ReferenceBrownianDynamics R)
  | self, [] => some self
  | self, call :: calls =>
    (update sqrt BOLTZ self call.1 call.2).bind (fun r => updateSeq sqrt BOLTZ r.dynamics calls)

/-- The integrator states that a program reaches: it constructs the integrator from numbers,
attaches or detaches a constraint projector, and calls `update` within its contract with
masses that are numbers. -/
inductive Reachable (sqrt : R → R) (BOLTZ : RealOpenMM R) : ReferenceBrownianDynamics R → Prop
  | construct (numberOfAtoms : Nat) (deltaT friction temperature : R) (log : Log R) :
      Reachable sqrt BOLTZ
        (ctor numberOfAtoms (val deltaT) (val friction) (val temperature) log).1
  | attach (self : ReferenceBrownianDynamics R) (p : Option (ReferenceConstraintAlgorithm R)) :
      Reachable sqrt BOLTZ self → Reachable sqrt BOLTZ (self.attach p)
  | step (self : ReferenceBrownianDynamics R) (n : Nat) (c : Caller R) (r : UpdateResult R) :
      Reachable sqrt BOLTZ self → Sized self n c → ProjectorInPlace self →
      (∀ m, m ∈ c.masses → m.isVal = true) → update sqrt BOLTZ self n c = some r →
      Reachable sqrt BOLTZ r.dynamics

/-- The axis that receives the `k`-th sample of a step: `k mod 3`. -/
def sampleAxis (k : Nat) : Fin 3 :=
  ⟨k % 3, Nat.mod_lt k (by decide)⟩

/-- The invariant of the reachable states: the friction is a positive number, and every
inverse mass is a non-negative number. -/
def WellFormed (self : ReferenceBrownianDynamics R) : Prop :=
  (∃ f : R, self.friction = val f ∧ 0 < f) ∧
  ∀ a, a ∈ self.inverseMasses → ∃ x : R, a = val x ∧ 0 ≤ x

end ReferenceBrownianDynamics

/-! ## Executable examples over the rationals -/

/-- An executable square root on the rationals, exact on the squares of rationals; it stands
for the library `sqrt` in the examples. -/
def sqrtQ (x : ℚ) : ℚ :=
  (Nat.sqrt x.num.toNat : ℚ) / (Nat.sqrt x.den : ℚ)

/-- The vector with components `a`, `b`, `c`. -/
def vec3 {R : Type} (a b c : R) : RealVec R :=
  fun j => if j = 0 then val a else if j = 1 then val b else val c

section Examples
open ReferenceBrownianDynamics

/-- The integrator of the examples: two particles, time step 1/2, friction 1, temperature 0,
no constraint projector. -/
def exampleDynamics : ReferenceBrownianDynamics ℚ :=
  (ctor 2 (val (1 / 2)) (val 1) (val 0) []).1

/-- The caller's side of the examples: two particles of masses 2 and 4. -/
def exampleCaller : Caller ℚ :=
  { atomCoordinates := [vec3 1 2 3, vec3 4 5 6]
    velocities := [vec3 0 0 0, vec3 0 0 0]
    forces := [vec3 1 1 1, vec3 2 2 2]
    masses := [val 2, val 4]
    random := { stream := fun k => val (k : ℚ), position := 0 }
    log := [] }

/-- A constraint projector that moves every trial position to `(1, 1, 1)`. -/
def moveToOnes : ReferenceConstraintAlgorithm ℚ :=
  fun _ _ x _ => x.map (fun _ => vec3 1 1 1)

/-- An integrator with one particle, time step 0, friction 1, temperature 0 and the constraint
projector `moveToOnes`. -/
def zeroStepProjected : ReferenceBrownianDynamics ℚ :=
  (ctor 1 (val 0) (val 1) (val 0) []).1.attach (some moveToOnes)

/-- The caller's side for one particle of mass 1 at the origin, with no force on it. -/
def originCaller : Caller ℚ :=
  { atomCoordinates := [vec3 0 0 0]
    velocities := [vec3 0 0 0]
    forces := [vec3 0 0 0]
    masses := [val 1]
    random := { stream := fun _ => val 0, position := 0 }
    log := [] }

/-- An integrator with one particle, time step 0, friction 1, temperature 0 and no constraint
projector. -/
def zeroStepDynamics : ReferenceBrownianDynamics ℚ :=
  (ctor 1 (val 0) (val 1) (val 0) []).1

/-- The caller's side of the examples with no force on the particles. -/
def restingCaller : Caller ℚ :=
  { exampleCaller with forces := [vec3 0 0 0, vec3 0 0 0] }

/-- The caller's side of the examples, the second particle having the mass 0. -/
def invalidMassCaller : Caller ℚ :=
  { exampleCaller with masses := [val 2, val 0] }

/-- The example integrator after one `update` call. -/
def steppedDynamics : ReferenceBrownianDynamics ℚ :=
  ((update sqrtQ (val 1) exampleDynamics 2 exampleCaller).map (fun r => r.dynamics)).getD
    exampleDynamics

/-- The caller's side of the examples with an empty masses array. -/
def noMassesCaller : Caller ℚ :=
  { exampleCaller with masses := [] }

/-- The example integrator with the constraint projector `moveToOnes` attached. -/
def projectedDynamics : ReferenceBrownianDynamics ℚ :=
  exampleDynamics.attach (some moveToOnes)

/-- The caller's side for one particle of mass 0 at `(1, 2, 3)` with the force `(1, 1, 1)` on
it. -/
def zeroMassCaller : Caller ℚ :=
  { atomCoordinates := [vec3 1 2 3]
    velocities := [vec3 0 0 0]
    forces := [vec3 1 1 1]
    masses := [val 0]
    random := { stream := fun _ => val 1, position := 0 }
    log := [] }

/-- An integrator with one particle, time step 1, friction 1, temperature -1 and no constraint
projector. -/
def negativeTemperatureDynamics : ReferenceBrownianDynamics ℚ :=
  (ctor 1 (val 1) (val 1) (val (-1)) []).1

/-- The caller's side of the examples with a different second particle: other coordinates,
force, mass and samples. -/
def otherParticleCaller : Caller ℚ :=
  { atomCoordinates := [vec3 1 2 3, vec3 9 9 9]
    velocities := [vec3 0 0 0, vec3 5 5 5]
    forces := [vec3 1 1 1, vec3 7 7 7]
    masses := [val 2, val 0]
    random := { stream := fun k => if k < 3 then val (k : ℚ) else val 100, position := 0 }
    log := [] }

end Examples

/-! ## Lemmas on the embedding -/

section Helpers
variable {R : Type} [LinearOrderedField R]

theorem forLoop_eq {σ : Type} (body : Nat → σ → Option σ) (F : Nat → σ) (n : Nat)
    (hstep : ∀ k, k < n → body k (F k) = some (F (k + 1))) :
    forLoop body n (F 0) = some (F n) := by
  induction n with
  | zero => rfl
  | succ m ih =>
    have h1 := ih (fun k hk => hstep k (Nat.lt_succ_of_lt hk))
    simp [forLoop, h1, hstep m (Nat.lt_succ_self m)]

theorem rewritePrefix_zero {α : Type} (g : Nat → α → α) (xs : List α) :
    rewritePrefix g 0 xs = xs := by
  apply List.ext_getElem?
  intro i
  simp [rewritePrefix]

theorem length_rewritePrefix {α : Type} (g : Nat → α → α) (k : Nat) (xs : List α) :
    (rewritePrefix g k xs).length = xs.length := by
  simp [rewritePrefix]

theorem getElem?_rewritePrefix {α : Type} (g : Nat → α → α) (k : Nat) (xs : List α) (i : Nat) :
    (rewritePrefix g k xs)[i]? = (xs[i]?).map (fun x => if i < k then g i x else x) := by
  simp [rewritePrefix]

theorem getElem_rewritePrefix {α : Type} (g : Nat → α → α) (k : Nat) (xs : List α) (i : Nat)
    (hi : i < xs.length) (h : i < (rewritePrefix g k xs).length) :
    (rewritePrefix g k xs)[i] = if i < k then g i xs[i] else xs[i] := by
  simp [rewritePrefix]

theorem getElem?_rewritePrefix_lt {α : Type} (g : Nat → α → α) (k : Nat) (xs : List α) (i : Nat)
    (hik : i < k) (hi : i < xs.length) :
    (rewritePrefix g k xs)[i]? = some (g i xs[i]) := by
  simp [getElem?_rewritePrefix, hik, List.getElem?_eq_getElem hi]

theorem getElem?_rewritePrefix_ge {α : Type} (g : Nat → α → α) (k : Nat) (xs : List α) (i : Nat)
    (hik : k ≤ i) :
    (rewritePrefix g k xs)[i]? = xs[i]? := by
  have : ¬ i < k := Nat.not_lt.mpr hik
  simp [getElem?_rewritePrefix, this]

theorem rewritePrefix_succ {α : Type} (g : Nat → α → α) (k : Nat) (xs : List α)
    (hk : k < xs.length) :
    (rewritePrefix g k xs).set k (g k xs[k]) = rewritePrefix g (k + 1) xs := by
  apply List.ext_getElem?
  intro i
  rw [List.getElem?_set]
  by_cases hik : k = i
  · subst hik
    simp [length_rewritePrefix, hk, getElem_rewritePrefix]
  · simp only [hik, if_false, getElem?_rewritePrefix]
    cases h : xs[i]? with
    | none => rfl
    | some x =>
      have : (i < k + 1) = (i < k) := by
        apply propext
        omega
      simp [this]

theorem rewritePrefix_succ_same {α : Type} (g : Nat → α → α) (k : Nat) (xs : List α)
    (hk : k < xs.length) (h : g k xs[k] = xs[k]) :
    rewritePrefix g k xs = rewritePrefix g (k + 1) xs := by
  rw [← rewritePrefix_succ g k xs hk, h]
  apply List.ext_getElem?
  intro i
  rw [List.getElem?_set]
  by_cases hik : k = i
  · subst hik
    simp [length_rewritePrefix, hk, getElem_rewritePrefix]
  · simp [hik]

namespace RealOpenMM

@[simp] theorem val_add_val (x y : R) : (val x + val y : RealOpenMM R) = val (x + y) := rfl
@[simp] theorem val_sub_val (x y : R) : (val x - val y : RealOpenMM R) = val (x - y) := rfl
@[simp] theorem val_mul_val (x y : R) : (val x * val y : RealOpenMM R) = val (x * y) := rfl
@[simp] theorem undef_add (a : RealOpenMM R) : undef + a = undef := rfl
@[simp] theorem undef_sub (a : RealOpenMM R) : undef - a = undef := rfl
@[simp] theorem undef_mul (a : RealOpenMM R) : undef * a = undef := rfl
@[simp] theorem undef_div (a : RealOpenMM R) : undef / a = undef := rfl
@[simp] theorem add_undef (a : RealOpenMM R) : a + undef = undef := by cases a <;> rfl
@[simp] theorem sub_undef (a : RealOpenMM R) : a - undef = undef := by cases a <;> rfl
@[simp] theorem mul_undef (a : RealOpenMM R) : a * undef = undef := by cases a <;> rfl
@[simp] theorem div_undef (a : RealOpenMM R) : a / undef = undef := by cases a <;> rfl

theorem val_div_val (x y : R) :
    (val x / val y : RealOpenMM R) = if y = 0 then undef else val (x / y) := rfl

@[simp] theorem val_div_val_of_ne (x y : R) (hy : y ≠ 0) :
    (val x / val y : RealOpenMM R) = val (x / y) := by
  simp [val_div_val, hy]

@[simp] theorem div_val_zero (a : RealOpenMM R) : a / (val 0 : RealOpenMM R) = undef := by
  cases a <;> simp [val_div_val]

@[simp] theorem le_val_val (x y : R) : RealOpenMM.le (val x) (val y) = decide (x ≤ y) := rfl
@[simp] theorem le_undef_left (a : RealOpenMM R) : RealOpenMM.le undef a = false := rfl
@[simp] theorem le_undef_right (a : RealOpenMM R) : RealOpenMM.le a undef = false := by
  cases a <;> rfl

theorem sqrtWith_val (sqrt : R → R) (x : R) :
    sqrtWith sqrt (val x) = if x < 0 then undef else val (sqrt x) := rfl

@[simp] theorem sqrtWith_val_of_nonneg (sqrt : R → R) (x : R) (hx : 0 ≤ x) :
    sqrtWith sqrt (val x) = val (sqrt x) := by
  simp [sqrtWith_val, not_lt.mpr hx]

@[simp] theorem sqrtWith_undef (sqrt : R → R) : sqrtWith sqrt (undef : RealOpenMM R) = undef := rfl

end RealOpenMM

theorem RealVec.read_lt {S : Type} (v : RealVec S) (j : Nat) (h : j < 3) :
    v.read j = some (v ⟨j, h⟩) := by
  simp [RealVec.read, h]

theorem RealVec.write_lt {S : Type} (v : RealVec S) (j : Nat) (a : RealOpenMM S)
    (h : j < 3) :
    v.write j a = some (Function.update v ⟨j, h⟩ a) := by
  simp [RealVec.write, h]

theorem vectorRead_lt {α : Type} (xs : List α) (i : Nat) (h : i < xs.length) :
    vectorRead xs i = some xs[i] := by
  simp [vectorRead, List.getElem?_eq_getElem h]

theorem vectorWrite_lt {α : Type} (xs : List α) (i : Nat) (a : α) (h : i < xs.length) :
    vectorWrite xs i a = some (xs.set i a) := by
  simp [vectorWrite, h]

theorem update3 {α : Type} (v : Fin 3 → α) (a : Fin 3 → α) :
    Function.update (Function.update (Function.update v 0 (a 0)) 1 (a 1)) 2 (a 2) = a := by
  funext j
  fin_cases j <;> simp [Function.update]

namespace ReferenceBrownianDynamics

theorem massErrors_succ (masses : List (RealOpenMM R)) (k : Nat) :
    massErrors masses (k + 1) =
      massErrors masses k ++ (if massInvalid masses k then [k] else []) := by
  simp [massErrors, List.range_succ, List.filter_cons]

theorem massLoop_eq (masses : List (RealOpenMM R)) (st : MassLoopState R) (n : Nat)
    (hm : n ≤ masses.length) (hi : n ≤ st.inverseMasses.length) :
    forLoop (massLoopBody masses) n st = some (massLoopAfter masses st n) := by
  have h0 : massLoopAfter masses st 0 = st := by
    simp [massLoopAfter, massErrors, rewritePrefix_zero]
  have h := forLoop_eq (massLoopBody masses) (massLoopAfter masses st) n (by
    intro k hk
    have hkm : k < masses.length := Nat.lt_of_lt_of_le hk hm
    have hki : k < st.inverseMasses.length := Nat.lt_of_lt_of_le hk hi
    have hget : masses.getD k undef = masses[k] := by
      simp [List.getD, List.getElem?_eq_getElem hkm]
    have hget2 : masses[k]?.getD undef = masses[k] := by
      simp [List.getElem?_eq_getElem hkm]
    by_cases hinv : massInvalid masses k = true
    · have hle : RealOpenMM.le masses[k] zero = true := by
        rw [← hget]; exact hinv
      have hsame : invertedMass masses k st.inverseMasses[k] = st.inverseMasses[k] := by
        simp [invertedMass, hinv]
      simp [massLoopBody, vectorRead_lt _ _ hkm, hle, massLoopAfter, massErrors_succ, hinv,
        massReport, hget2, ← rewritePrefix_succ_same _ _ _ hki hsame, Nat.add_assoc]
    · have hle : RealOpenMM.le masses[k] zero = false := by
        rw [← hget]
        exact Bool.eq_false_iff.mpr hinv
      have hnew : invertedMass masses k st.inverseMasses[k] = one / masses[k] := by
        simp [invertedMass, hinv, hget2]
      simp [massLoopBody, vectorRead_lt _ _ hkm, hle, massLoopAfter, massErrors_succ, hinv,
        vectorWrite_lt, length_rewritePrefix, hki, ← rewritePrefix_succ _ _ _ hki, hnew])
  rw [h0] at h
  exact h

theorem trialInner_eq (sqrt : R → R) (forceScale noiseAmplitude : RealOpenMM R)
    (atomCoordinates forces : List (RealVec R)) (inverseMasses : List (RealOpenMM R))
    (i : Nat) (st : TrialLoopState R)
    (hc : i < atomCoordinates.length) (hf : i < forces.length) (him : i < inverseMasses.length)
    (hx : i < st.xPrime.length) :
    forLoop (trialLoopBody sqrt forceScale noiseAmplitude atomCoordinates forces inverseMasses i)
        3 st =
      some { xPrime := st.xPrime.set i
               (trialVec sqrt forceScale noiseAmplitude atomCoordinates[i] forces[i]
                 inverseMasses[i] st.random.stream st.random.position)
             random := { stream := st.random.stream, position := st.random.position + 3 } } := by
  have h3 := update3 st.xPrime[i]
    (trialVec sqrt forceScale noiseAmplitude atomCoordinates[i] forces[i]
      inverseMasses[i] st.random.stream st.random.position)
  simp [forLoop, trialLoopBody, vectorRead_lt, RealVec.read_lt, RealVec.write_lt,
    getNormallyDistributedRandomNumber, hc, hf, him, hx, vectorWrite_lt]
  rw [← h3]
  simp [trialVec]

theorem trialLoop_eq (sqrt : R → R) (forceScale noiseAmplitude : RealOpenMM R)
    (atomCoordinates forces : List (RealVec R)) (inverseMasses : List (RealOpenMM R))
    (st : TrialLoopState R) (n : Nat)
    (hc : n ≤ atomCoordinates.length) (hf : n ≤ forces.length) (him : n ≤ inverseMasses.length)
    (hx : n ≤ st.xPrime.length) :
    forLoop (fun i => forLoop
        (trialLoopBody sqrt forceScale noiseAmplitude atomCoordinates forces inverseMasses i) 3)
        n st =
      some (trialLoopAfter sqrt forceScale noiseAmplitude atomCoordinates forces inverseMasses
        st n) := by
  have h0 : trialLoopAfter sqrt forceScale noiseAmplitude atomCoordinates forces inverseMasses
      st 0 = st := by
    simp [trialLoopAfter, rewritePrefix_zero]
  have h := forLoop_eq (fun i => forLoop
    (trialLoopBody sqrt forceScale noiseAmplitude atomCoordinates forces inverseMasses i) 3)
    (trialLoopAfter sqrt forceScale noiseAmplitude atomCoordinates forces inverseMasses st) n (by
      intro k hk
      have hkc : k < atomCoordinates.length := Nat.lt_of_lt_of_le hk hc
      have hkf : k < forces.length := Nat.lt_of_lt_of_le hk hf
      have hkm : k < inverseMasses.length := Nat.lt_of_lt_of_le hk him
      have hkx : k < st.xPrime.length := Nat.lt_of_lt_of_le hk hx
      have hkx2 : k < (trialLoopAfter sqrt forceScale noiseAmplitude atomCoordinates forces
          inverseMasses st k).xPrime.length := by
        simpa [trialLoopAfter, length_rewritePrefix] using hkx
      beta_reduce
      rw [trialInner_eq sqrt forceScale noiseAmplitude atomCoordinates forces inverseMasses k _
        hkc hkf hkm hkx2]
      have hstep := rewritePrefix_succ
        (fun i (_ : RealVec R) => trialAt sqrt forceScale noiseAmplitude atomCoordinates forces
          inverseMasses st.random i) k st.xPrime hkx
      have e1 : atomCoordinates.getD k (fun _ => undef) = atomCoordinates[k] := by simp [hkc]
      have e2 : forces.getD k (fun _ => undef) = forces[k] := by simp [hkf]
      have e3 : inverseMasses.getD k undef = inverseMasses[k] := by simp [hkm]
      have e4 : trialAt sqrt forceScale noiseAmplitude atomCoordinates forces inverseMasses
          st.random k =
          trialVec sqrt forceScale noiseAmplitude atomCoordinates[k] forces[k] inverseMasses[k]
            st.random.stream (st.random.position + 3 * k) := by
        simp only [trialAt, e1, e2, e3]
      simp only [trialLoopAfter]
      rw [← hstep, e4, Nat.mul_succ, Nat.add_assoc])
  rw [h0] at h
  exact h

theorem commitInner_eq (velocityScale : RealOpenMM R) (xPrime : List (RealVec R))
    (i : Nat) (st : CommitLoopState R)
    (hx : i < xPrime.length) (hc : i < st.atomCoordinates.length)
    (hv : i < st.velocities.length) :
    forLoop (commitLoopBody velocityScale xPrime i) 3 st =
      some { atomCoordinates := st.atomCoordinates.set i xPrime[i]
             velocities := st.velocities.set i
               (velocityVec velocityScale xPrime[i] st.atomCoordinates[i]) } := by
  simp [forLoop, commitLoopBody, vectorRead_lt, RealVec.read_lt, RealVec.write_lt,
    hx, hc, hv, vectorWrite_lt]
  refine ⟨?_, ?_⟩ <;> congr 1 <;> funext j <;> fin_cases j <;>
    simp [velocityVec, Function.update]

theorem commitLoop_eq (velocityScale : RealOpenMM R) (xPrime : List (RealVec R))
    (st : CommitLoopState R) (n : Nat)
    (hx : n ≤ xPrime.length) (hc : n ≤ st.atomCoordinates.length)
    (hv : n ≤ st.velocities.length) :
    forLoop (fun i => forLoop (commitLoopBody velocityScale xPrime i) 3) n st =
      some (commitLoopAfter velocityScale xPrime st n) := by
  have h0 : commitLoopAfter velocityScale xPrime st 0 = st := by
    simp [commitLoopAfter, rewritePrefix_zero]
  have h := forLoop_eq (fun i => forLoop (commitLoopBody velocityScale xPrime i) 3)
    (commitLoopAfter velocityScale xPrime st) n (by
      intro k hk
      have hkx : k < xPrime.length := Nat.lt_of_lt_of_le hk hx
      have hkc : k < st.atomCoordinates.length := Nat.lt_of_lt_of_le hk hc
      have hkv : k < st.velocities.length := Nat.lt_of_lt_of_le hk hv
      have hkc2 : k < (commitLoopAfter velocityScale xPrime st k).atomCoordinates.length := by
        simpa [commitLoopAfter, length_rewritePrefix] using hkc
      have hkv2 : k < (commitLoopAfter velocityScale xPrime st k).velocities.length := by
        simpa [commitLoopAfter, length_rewritePrefix] using hkv
      beta_reduce
      rw [commitInner_eq velocityScale xPrime k _ hkx hkc2 hkv2]
      have hs1 := rewritePrefix_succ
        (fun i (_ : RealVec R) => xPrime.getD i (fun _ => undef)) k st.atomCoordinates hkc
      have hs2 := rewritePrefix_succ
        (fun i (_ : RealVec R) => velocityVec velocityScale (xPrime.getD i (fun _ => undef))
          (st.atomCoordinates.getD i (fun _ => undef))) k st.velocities hkv
      have e1 : xPrime.getD k (fun _ => undef) = xPrime[k] := by simp [hkx]
      have e2 : st.atomCoordinates.getD k (fun _ => undef) = st.atomCoordinates[k] := by
        simp [hkc]
      have e3 : (rewritePrefix (fun i (_ : RealVec R) => xPrime.getD i (fun _ => undef)) k
          st.atomCoordinates)[k] = st.atomCoordinates[k] := by
        simp [getElem_rewritePrefix, hkc]
      simp only [commitLoopAfter]
      rw [← hs1, ← hs2, e1, e2, e3])
  rw [h0] at h
  exact h

theorem update_eq (sqrt : R → R) (BOLTZ : RealOpenMM R) (self : ReferenceBrownianDynamics R)
    (n : Nat) (c : Caller R)
    (hc : n ≤ c.atomCoordinates.length) (hv : n ≤ c.velocities.length)
    (hf : n ≤ c.forces.length) (hm : self.getTimeStep = 0 → n ≤ c.masses.length)
    (hx : n ≤ self.xPrime.length) (him : n ≤ self.inverseMasses.length)
    (hp : n ≤ (projectedPositions sqrt BOLTZ self n c).length) :
    update sqrt BOLTZ self n c = some (updateAfter sqrt BOLTZ self n c) := by
  have him2 : n ≤ (inverseMassesAfter self n c).length := by
    unfold inverseMassesAfter
    split <;> simp [length_rewritePrefix, him]
  have htrial := trialLoop_eq sqrt (forceScale self) (noiseAmplitude sqrt BOLTZ self)
    c.atomCoordinates c.forces (inverseMassesAfter self n c)
    { xPrime := self.xPrime, random := c.random } n hc hf him2 hx
  have hcommit := commitLoop_eq (velocityScale self) (projectedPositions sqrt BOLTZ self n c)
    { atomCoordinates := c.atomCoordinates, velocities := c.velocities } n hp hc hv
  by_cases h0 : self.getTimeStep = 0
  · have hmass := massLoop_eq c.masses
      { message := [.text ("\nReferenceBrownianDynamics::update")], errors := 0,
        inverseMasses := self.inverseMasses } n (hm h0) him
    simp only [inverseMassesAfter, h0, if_true] at htrial
    simp only [projectedPositions, trialPositions, inverseMassesAfter, h0, if_true] at hcommit
    by_cases he : (massErrors c.masses n).length = 0
    · simp [update, h0, hmass, massLoopAfter, he, htrial, trialLoopAfter, hcommit,
        commitLoopAfter, updateAfter, projectedPositions, trialPositions, inverseMassesAfter,
        logAfter]
    · simp [update, h0, hmass, massLoopAfter, he, htrial, trialLoopAfter, hcommit,
        commitLoopAfter, updateAfter, projectedPositions, trialPositions, inverseMassesAfter,
        logAfter, massMessage]
  · simp only [inverseMassesAfter, h0, if_false] at htrial
    simp only [projectedPositions, trialPositions, inverseMassesAfter, h0, if_false] at hcommit
    simp [update, h0, htrial, trialLoopAfter, hcommit,
      commitLoopAfter, updateAfter, projectedPositions, trialPositions, inverseMassesAfter,
      logAfter]

end ReferenceBrownianDynamics

open ReferenceBrownianDynamics

theorem getD_eq_getElem {α : Type} (xs : List α) (i : Nat) (d : α) (h : i < xs.length) :
    xs.getD i d = xs[i] := by
  simp [h]

namespace ReferenceBrownianDynamics

theorem ctor_fst (numberOfAtoms : Nat) (deltaT friction temperature : RealOpenMM R)
    (log : Log R) :
    (ctor numberOfAtoms deltaT friction temperature log).1 =
      { toReferenceDynamics := ReferenceDynamics.ctor numberOfAtoms deltaT temperature
        friction := if RealOpenMM.le friction zero then one else friction
        xPrime := List.replicate numberOfAtoms (fun _ => zero)
        inverseMasses := List.replicate numberOfAtoms zero } := by
  unfold ctor
  by_cases h : RealOpenMM.le friction zero = true <;> simp [h]

@[simp] theorem ctor_xPrime (numberOfAtoms : Nat) (deltaT friction temperature : RealOpenMM R)
    (log : Log R) :
    (ctor numberOfAtoms deltaT friction temperature log).1.xPrime =
      List.replicate numberOfAtoms (fun _ => zero) := by
  rw [ctor_fst]

@[simp] theorem ctor_inverseMasses (numberOfAtoms : Nat)
    (deltaT friction temperature : RealOpenMM R) (log : Log R) :
    (ctor numberOfAtoms deltaT friction temperature log).1.inverseMasses =
      List.replicate numberOfAtoms zero := by
  rw [ctor_fst]

@[simp] theorem ctor_friction (numberOfAtoms : Nat) (deltaT friction temperature : RealOpenMM R)
    (log : Log R) :
    (ctor numberOfAtoms deltaT friction temperature log).1.friction =
      if RealOpenMM.le friction zero then one else friction := by
  rw [ctor_fst]

@[simp] theorem ctor_getDeltaT (numberOfAtoms : Nat) (deltaT friction temperature : RealOpenMM R)
    (log : Log R) :
    (ctor numberOfAtoms deltaT friction temperature log).1.getDeltaT = deltaT := by
  rw [ctor_fst]
  rfl

@[simp] theorem ctor_getTemperature (numberOfAtoms : Nat)
    (deltaT friction temperature : RealOpenMM R) (log : Log R) :
    (ctor numberOfAtoms deltaT friction temperature log).1.getTemperature = temperature := by
  rw [ctor_fst]
  rfl

@[simp] theorem ctor_getTimeStep (numberOfAtoms : Nat)
    (deltaT friction temperature : RealOpenMM R) (log : Log R) :
    (ctor numberOfAtoms deltaT friction temperature log).1.getTimeStep = 0 := by
  rw [ctor_fst]
  rfl

@[simp] theorem ctor_getReferenceConstraintAlgorithm (numberOfAtoms : Nat)
    (deltaT friction temperature : RealOpenMM R) (log : Log R) :
    (ctor numberOfAtoms deltaT friction temperature log).1.getReferenceConstraintAlgorithm =
      none := by
  rw [ctor_fst]
  rfl

@[simp] theorem attach_getReferenceConstraintAlgorithm {S : Type} (self : ReferenceBrownianDynamics S)
    (p : Option (ReferenceConstraintAlgorithm S)) :
    (self.attach p).getReferenceConstraintAlgorithm = p := rfl

@[simp] theorem attach_getDeltaT {S : Type} (self : ReferenceBrownianDynamics S)
    (p : Option (ReferenceConstraintAlgorithm S)) :
    (self.attach p).getDeltaT = self.getDeltaT := rfl

@[simp] theorem attach_getTemperature {S : Type} (self : ReferenceBrownianDynamics S)
    (p : Option (ReferenceConstraintAlgorithm S)) :
    (self.attach p).getTemperature = self.getTemperature := rfl

@[simp] theorem attach_getTimeStep {S : Type} (self : ReferenceBrownianDynamics S)
    (p : Option (ReferenceConstraintAlgorithm S)) :
    (self.attach p).getTimeStep = self.getTimeStep := rfl

@[simp] theorem attach_friction {S : Type} (self : ReferenceBrownianDynamics S)
    (p : Option (ReferenceConstraintAlgorithm S)) :
    (self.attach p).friction = self.friction := rfl

@[simp] theorem attach_xPrime {S : Type} (self : ReferenceBrownianDynamics S)
    (p : Option (ReferenceConstraintAlgorithm S)) :
    (self.attach p).xPrime = self.xPrime := rfl

@[simp] theorem attach_inverseMasses {S : Type} (self : ReferenceBrownianDynamics S)
    (p : Option (ReferenceConstraintAlgorithm S)) :
    (self.attach p).inverseMasses = self.inverseMasses := rfl

theorem update_eq_of_sized (sqrt : R → R) (BOLTZ : RealOpenMM R)
    (self : ReferenceBrownianDynamics R) (n : Nat) (c : Caller R)
    (hs : Sized self n c) (hp : ProjectorInPlace self) :
    update sqrt BOLTZ self n c = some (updateAfter sqrt BOLTZ self n c) := by
  obtain ⟨hc, hv, hf, hm, hx, him⟩ := hs
  apply update_eq sqrt BOLTZ self n c hc hv hf (fun _ => hm) hx him
  unfold projectedPositions
  cases hq : self.getReferenceConstraintAlgorithm with
  | none => simpa [trialPositions, length_rewritePrefix] using hx
  | some p =>
    simp only []
    rw [hp p hq]
    simpa [trialPositions, length_rewritePrefix] using hx

theorem length_projectedPositions (sqrt : R → R) (BOLTZ : RealOpenMM R)
    (self : ReferenceBrownianDynamics R) (n : Nat) (c : Caller R)
    (hp : ProjectorInPlace self) :
    (projectedPositions sqrt BOLTZ self n c).length = self.xPrime.length := by
  unfold projectedPositions
  cases hq : self.getReferenceConstraintAlgorithm with
  | none => simp [trialPositions, length_rewritePrefix]
  | some p =>
    simp only []
    rw [hp p hq]
    simp [trialPositions, length_rewritePrefix]

theorem updateAfter_velocities (sqrt : R → R) (BOLTZ : RealOpenMM R)
    (self : ReferenceBrownianDynamics R) (n : Nat) (c : Caller R) (i : Nat) (hi : i < n)
    (x : RealVec R) (hp : (projectedPositions sqrt BOLTZ self n c)[i]? = some x)
    (hc : i < c.atomCoordinates.length) (hv : i < c.velocities.length) :
    (updateAfter sqrt BOLTZ self n c).caller.velocities[i]? =
      some (velocityVec (velocityScale self) x c.atomCoordinates[i]) := by
  simp only [updateAfter]
  rw [getElem?_rewritePrefix_lt _ _ _ _ hi hv, getD_eq_getElem _ _ _ hc]
  simp [List.getD, hp]

theorem updateAfter_atomCoordinates (sqrt : R → R) (BOLTZ : RealOpenMM R)
    (self : ReferenceBrownianDynamics R) (n : Nat) (c : Caller R) (i : Nat) (hi : i < n)
    (x : RealVec R) (hp : (projectedPositions sqrt BOLTZ self n c)[i]? = some x)
    (hc : i < c.atomCoordinates.length) :
    (updateAfter sqrt BOLTZ self n c).caller.atomCoordinates[i]? = some x := by
  simp only [updateAfter]
  rw [getElem?_rewritePrefix_lt _ _ _ _ hi hc]
  simp [List.getD, hp]

theorem trialPositions_getElem? (sqrt : R → R) (BOLTZ : RealOpenMM R)
    (self : ReferenceBrownianDynamics R) (n : Nat) (c : Caller R) (i : Nat) (hi : i < n)
    (hx : i < self.xPrime.length) (hc : i < c.atomCoordinates.length)
    (hf : i < c.forces.length) (him : i < (inverseMassesAfter self n c).length) :
    (trialPositions sqrt BOLTZ self n c)[i]? =
      some (trialVec sqrt (forceScale self) (noiseAmplitude sqrt BOLTZ self) c.atomCoordinates[i]
        c.forces[i] (inverseMassesAfter self n c)[i] c.random.stream
        (c.random.position + 3 * i)) := by
  simp only [trialPositions]
  rw [getElem?_rewritePrefix_lt _ _ _ _ hi hx]
  simp only [trialAt]
  rw [getD_eq_getElem _ _ _ hc, getD_eq_getElem _ _ _ hf, getD_eq_getElem _ _ _ him]

theorem length_inverseMassesAfter (self : ReferenceBrownianDynamics R) (n : Nat) (c : Caller R) :
    (inverseMassesAfter self n c).length = self.inverseMasses.length := by
  unfold inverseMassesAfter
  split <;> simp [length_rewritePrefix]

theorem projectedPositions_none (sqrt : R → R) (BOLTZ : RealOpenMM R)
    (self : ReferenceBrownianDynamics R) (n : Nat) (c : Caller R)
    (hnone : self.getReferenceConstraintAlgorithm = none) :
    projectedPositions sqrt BOLTZ self n c = trialPositions sqrt BOLTZ self n c := by
  simp [projectedPositions, hnone]

theorem projectorInPlace_of_none {S : Type} (self : ReferenceBrownianDynamics S)
    (hnone : self.getReferenceConstraintAlgorithm = none) : ProjectorInPlace self := by
  intro p hq
  rw [hnone] at hq
  cases hq

end ReferenceBrownianDynamics

theorem RealOpenMM.isVal_iff (a : RealOpenMM R) : a.isVal = true ↔ ∃ x, a = val x := by
  cases a <;> simp [isVal]

namespace ReferenceBrownianDynamics

theorem update_some_eq (sqrt : R → R) (BOLTZ : RealOpenMM R)
    (self : ReferenceBrownianDynamics R) (n : Nat) (c : Caller R) (r : UpdateResult R)
    (hs : Sized self n c) (hp : ProjectorInPlace self)
    (h : update sqrt BOLTZ self n c = some r) : r = updateAfter sqrt BOLTZ self n c := by
  rw [update_eq_of_sized sqrt BOLTZ self n c hs hp] at h
  exact (Option.some.inj h).symm

theorem wellFormed_ctor (numberOfAtoms : Nat) (deltaT friction temperature : R) (log : Log R) :
    WellFormed (ctor numberOfAtoms (val deltaT) (val friction) (val temperature) log).1 := by
  constructor
  · by_cases h : friction ≤ 0
    · exact ⟨1, by simp [zero, one, h], one_pos⟩
    · exact ⟨friction, by simp [zero, h], lt_of_not_le h⟩
  · intro a ha
    simp only [ctor_inverseMasses, List.mem_replicate] at ha
    exact ⟨0, ha.2, le_refl 0⟩

theorem invertedMass_wellFormed (masses : List (RealOpenMM R)) (i : Nat) (old : RealOpenMM R)
    (hi : i < masses.length) (hm : ∀ m, m ∈ masses → m.isVal = true)
    (hold : ∃ x : R, old = val x ∧ 0 ≤ x) :
    ∃ x : R, invertedMass masses i old = val x ∧ 0 ≤ x := by
  unfold invertedMass
  by_cases hinv : massInvalid masses i = true
  · simpa [hinv] using hold
  · obtain ⟨x, hx⟩ := (RealOpenMM.isVal_iff _).mp (hm masses[i] (List.getElem_mem hi))
    have hget : masses.getD i undef = val x := by
      rw [getD_eq_getElem _ _ _ hi, hx]
    have hpos : 0 < x := by
      simp only [massInvalid, hget, zero, le_val_val, decide_eq_true_eq] at hinv
      exact lt_of_not_le hinv
    refine ⟨1 / x, ?_, le_of_lt (one_div_pos.mpr hpos)⟩
    rw [if_neg hinv, hget, one, val_div_val_of_ne _ _ (ne_of_gt hpos)]

theorem inverseMassesAfter_wellFormed (self : ReferenceBrownianDynamics R) (n : Nat)
    (c : Caller R) (hn : n ≤ c.masses.length) (hm : ∀ m, m ∈ c.masses → m.isVal = true)
    (hw : ∀ a, a ∈ self.inverseMasses → ∃ x : R, a = val x ∧ 0 ≤ x) :
    ∀ a, a ∈ inverseMassesAfter self n c → ∃ x : R, a = val x ∧ 0 ≤ x := by
  intro a ha
  unfold inverseMassesAfter at ha
  split at ha
  · obtain ⟨i, hi, rfl⟩ := List.getElem_of_mem ha
    have hi2 : i < self.inverseMasses.length := by
      simpa [length_rewritePrefix] using hi
    rw [getElem_rewritePrefix _ _ _ _ hi2]
    have hold := hw self.inverseMasses[i] (List.getElem_mem hi2)
    by_cases hin : i < n
    · simp only [hin, if_true]
      exact invertedMass_wellFormed c.masses i _ (Nat.lt_of_lt_of_le hin hn) hm hold
    · simpa [hin] using hold
  · exact hw a ha

theorem wellFormed_of_reachable (sqrt : R → R) (BOLTZ : RealOpenMM R)
    (self : ReferenceBrownianDynamics R) (h : Reachable sqrt BOLTZ self) : WellFormed self := by
  induction h with
  | construct numberOfAtoms deltaT friction temperature log =>
    exact wellFormed_ctor numberOfAtoms deltaT friction temperature log
  | attach self p _ ih => exact ih
  | step self n c r _ hs hp hm hr ih =>
    rw [update_some_eq sqrt BOLTZ self n c r hs hp hr]
    exact ⟨ih.1, inverseMassesAfter_wellFormed self n c hs.2.2.2.1 hm ih.2⟩

end ReferenceBrownianDynamics

theorem sqrtQ_zero : sqrtQ 0 = 0 := by
  simp [sqrtQ]

theorem vec3_zero : (vec3 0 0 0 : RealVec ℚ) = fun _ => zero := by
  funext j
  simp [vec3, zero]

theorem isVal_vec3 (a b c : ℚ) (j : Fin 3) : ((vec3 a b c : RealVec ℚ) j).isVal = true := by
  unfold vec3
  split
  · rfl
  · split <;> rfl

namespace ReferenceBrownianDynamics

theorem updateAfter_xPrime (sqrt : R → R) (BOLTZ : RealOpenMM R)
    (self : ReferenceBrownianDynamics R) (n : Nat) (c : Caller R) :
    (updateAfter sqrt BOLTZ self n c).dynamics.xPrime =
      match self.getReferenceConstraintAlgorithm with
      | some p => p n c.atomCoordinates (trialPositions sqrt BOLTZ self n c)
          (updateAfter sqrt BOLTZ self n c).dynamics.inverseMasses
      | none => trialPositions sqrt BOLTZ self n c := by
  simp only [updateAfter, projectedPositions]

theorem inverseMassesAfter_first (self : ReferenceBrownianDynamics R) (n : Nat) (c : Caller R)
    (h0 : self.getTimeStep = 0) (i : Nat) (hi : i < n) (him : i < self.inverseMasses.length)
    (m : R) (hm : c.masses[i]? = some (val m)) (hpos : 0 < m) :
    (inverseMassesAfter self n c)[i]? = some (val (1 / m)) := by
  have hget : c.masses.getD i undef = val m := by
    simp [List.getD, hm]
  have hinv : massInvalid c.masses i = false := by
    rw [massInvalid, hget]
    simp [zero, not_le.mpr hpos]
  simp only [inverseMassesAfter, h0, if_true]
  rw [getElem?_rewritePrefix_lt _ _ _ _ hi him, invertedMass, hinv, hget, one,
    val_div_val_of_ne _ _ (ne_of_gt hpos)]
  rfl

end ReferenceBrownianDynamics

namespace ReferenceBrownianDynamics

theorem mem_massErrors (masses : List (RealOpenMM R)) (n i : Nat) :
    i ∈ massErrors masses n ↔ i < n ∧ massInvalid masses i = true := by
  simp [massErrors]

theorem int_mem_massMessage (masses : List (RealOpenMM R)) (n i : Nat) :
    MessageItem.int i ∈ massMessage masses n ↔ i < n ∧ massInvalid masses i = true := by
  rw [← mem_massErrors]
  simp [massMessage, massReport, List.mem_flatMap]

theorem massErrors_length_ne_zero (masses : List (RealOpenMM R)) (n : Nat) :
    (massErrors masses n).length ≠ 0 ↔ ∃ i, i < n ∧ massInvalid masses i = true := by
  constructor
  · intro h
    obtain ⟨i, hi⟩ := List.exists_mem_of_length_pos (Nat.pos_of_ne_zero h)
    exact ⟨i, (mem_massErrors masses n i).mp hi⟩
  · rintro ⟨i, hi⟩ h
    have hmem := (mem_massErrors masses n i).mpr hi
    rw [List.length_eq_zero] at h
    rw [h] at hmem
    cases hmem

end ReferenceBrownianDynamics

theorem steppedDynamics_eq :
    steppedDynamics = (updateAfter sqrtQ (val 1) exampleDynamics 2 exampleCaller).dynamics := by
  have hs : Sized exampleDynamics 2 exampleCaller := by
    simp [Sized, exampleDynamics, exampleCaller]
  have hp : ProjectorInPlace exampleDynamics :=
    projectorInPlace_of_none _ (by simp [exampleDynamics])
  simp [steppedDynamics, update_eq_of_sized sqrtQ (val 1) exampleDynamics 2 exampleCaller hs hp]

namespace ReferenceBrownianDynamics

theorem updateAfter_projectorInPlace (sqrt : R → R) (BOLTZ : RealOpenMM R)
    (self : ReferenceBrownianDynamics R) (n : Nat) (c : Caller R)
    (hp : ProjectorInPlace self) :
    ProjectorInPlace (updateAfter sqrt BOLTZ self n c).dynamics := hp

theorem updateAfter_sized (sqrt : R → R) (BOLTZ : RealOpenMM R)
    (self : ReferenceBrownianDynamics R) (n : Nat) (c : Caller R)
    (hp : ProjectorInPlace self) (k : Nat) (c2 : Caller R) (hs : Sized self k c2) :
    Sized (updateAfter sqrt BOLTZ self n c).dynamics k c2 := by
  obtain ⟨h1, h2, h3, h4, h5, h6⟩ := hs
  refine ⟨h1, h2, h3, h4, ?_, ?_⟩
  · simp only [updateAfter]
    rw [length_projectedPositions sqrt BOLTZ self n c hp]
    exact h5
  · simp only [updateAfter]
    rw [length_inverseMassesAfter]
    exact h6

theorem updateSeq_timeStep (sqrt : R → R) (BOLTZ : RealOpenMM R)
    (calls : List (Nat × Caller R)) :
    ∀ self : ReferenceBrownianDynamics R, ProjectorInPlace self →
      (∀ call, call ∈ calls → Sized self call.1 call.2) →
      ∃ last, updateSeq sqrt BOLTZ self calls = some last ∧
        last.getTimeStep = self.getTimeStep + calls.length := by
  induction calls with
  | nil =>
    intro self _ _
    exact ⟨self, rfl, rfl⟩
  | cons call calls ih =>
    intro self hp hs
    have h1 := update_eq_of_sized sqrt BOLTZ self call.1 call.2
      (hs call (List.mem_cons_self call calls)) hp
    obtain ⟨last, hlast, htime⟩ := ih (updateAfter sqrt BOLTZ self call.1 call.2).dynamics
      (updateAfter_projectorInPlace sqrt BOLTZ self call.1 call.2 hp)
      (fun k hk => updateAfter_sized sqrt BOLTZ self call.1 call.2 hp k.1 k.2
        (hs k (List.mem_cons_of_mem call hk)))
    refine ⟨last, ?_, ?_⟩
    · simp [updateSeq, h1, hlast]
    · rw [htime]
      simp only [updateAfter, ReferenceDynamics.getTimeStep,
        ReferenceDynamics.incrementTimeStep, List.length_cons]
      omega

end ReferenceBrownianDynamics

theorem RealOpenMM.mul_comm_val (a b : RealOpenMM R) : a * b = b * a := by
  cases a <;> cases b <;> simp [mul_comm]

namespace ReferenceBrownianDynamics

theorem update_some_fields (sqrt : R → R) (BOLTZ : RealOpenMM R)
    (self : ReferenceBrownianDynamics R) (n : Nat) (c : Caller R) (r : UpdateResult R)
    (h : update sqrt BOLTZ self n c = some r) :
    r.dynamics.friction = self.friction ∧
      r.dynamics.toReferenceDynamics = self.toReferenceDynamics.incrementTimeStep ∧
      r.caller.forces = c.forces ∧ r.caller.masses = c.masses ∧
      r.returnValue = ReferenceDynamics.DefaultReturn := by
  by_cases h0 : self.getTimeStep = 0
  · simp only [update, h0, if_true, bind, pure, Option.bind_eq_some] at h
    obtain ⟨a, _, hrest⟩ := h
    split at hrest <;>
      simp only [Option.some_bind, Option.bind_eq_some] at hrest <;>
      obtain ⟨t, _, m, _, h3⟩ := hrest <;>
      have h4 := Option.some.inj h3 <;>
      subst h4 <;>
      exact ⟨rfl, rfl, rfl, rfl, rfl⟩
  · simp only [update, h0, if_false, bind, pure, Option.some_bind, Option.bind_eq_some] at h
    obtain ⟨t, _, m, _, h3⟩ := h
    have h4 := Option.some.inj h3
    subst h4
    exact ⟨rfl, rfl, rfl, rfl, rfl⟩

end ReferenceBrownianDynamics

namespace ReferenceBrownianDynamics

theorem updateSeq_some_fields (sqrt : R → R) (BOLTZ : RealOpenMM R)
    (calls : List (Nat × Caller R)) :
    ∀ self last : ReferenceBrownianDynamics R, updateSeq sqrt BOLTZ self calls = some last →
      last.getFriction = self.getFriction ∧ last.getDeltaT = self.getDeltaT ∧
        last.getTemperature = self.getTemperature := by
  induction calls with
  | nil =>
    intro self last h
    have h2 := Option.some.inj h
    subst h2
    exact ⟨rfl, rfl, rfl⟩
  | cons call calls ih =>
    intro self last h
    simp only [updateSeq, Option.bind_eq_some] at h
    obtain ⟨r, hr, hlast⟩ := h
    obtain ⟨h1, h2, h3⟩ := ih r.dynamics last hlast
    obtain ⟨hf, hb, _⟩ := update_some_fields sqrt BOLTZ self call.1 call.2 r hr
    refine ⟨?_, ?_, ?_⟩
    · rw [h1]; exact hf
    · rw [h2]; simp only [ReferenceDynamics.getDeltaT, hb, ReferenceDynamics.incrementTimeStep]
    · rw [h3]
      simp only [ReferenceDynamics.getTemperature, hb, ReferenceDynamics.incrementTimeStep]

theorem ctor_friction_pos (numberOfAtoms : Nat) (deltaT temperature : RealOpenMM R)
    (friction : R) (log : Log R) :
    ∃ f : R, (ctor numberOfAtoms deltaT (val friction) temperature log).1.getFriction = val f ∧
      0 < f := by
  by_cases h : friction ≤ 0
  · exact ⟨1, by simp [getFriction, zero, one, h], one_pos⟩
  · exact ⟨friction, by simp [getFriction, zero, h], lt_of_not_le h⟩

theorem ctor_snd (numberOfAtoms : Nat) (deltaT friction temperature : RealOpenMM R)
    (log : Log R) :
    (ctor numberOfAtoms deltaT friction temperature log).2 =
      if RealOpenMM.le friction zero then
        printError
          [.text ("\nReferenceBrownianDynamics::ReferenceBrownianDynamics"),
           .text (" input frction value="), .real friction,
           .text (" is invalid -- setting to 1.")] log
      else log := by
  unfold ctor
  by_cases h : RealOpenMM.le friction zero = true <;> simp [h]

end ReferenceBrownianDynamics

namespace ReferenceBrownianDynamics

theorem inverseMassesAfter_getElem? (self : ReferenceBrownianDynamics R) (n : Nat) (c : Caller R)
    (i : Nat) (hi : i < n) (him : i < self.inverseMasses.length) :
    (inverseMassesAfter self n c)[i]? =
      some (if self.getTimeStep = 0 then invertedMass c.masses i self.inverseMasses[i]
        else self.inverseMasses[i]) := by
  unfold inverseMassesAfter
  by_cases h0 : self.getTimeStep = 0
  · simp only [h0, if_true]
    exact getElem?_rewritePrefix_lt _ _ _ _ hi him
  · simp only [h0, if_false]
    exact List.getElem?_eq_getElem him

theorem updateAfter_coordinates_none (sqrt : R → R) (BOLTZ : RealOpenMM R)
    (self : ReferenceBrownianDynamics R) (n : Nat) (c : Caller R)
    (hs : Sized self n c) (hnone : self.getReferenceConstraintAlgorithm = none)
    (i : Nat) (hi : i < n) (x0 f : RealVec R) (im : RealOpenMM R)
    (hx0 : c.atomCoordinates[i]? = some x0) (hf : c.forces[i]? = some f)
    (him : (inverseMassesAfter self n c)[i]? = some im) :
    (updateAfter sqrt BOLTZ self n c).caller.atomCoordinates[i]? =
        some (trialVec sqrt (forceScale self) (noiseAmplitude sqrt BOLTZ self) x0 f im
          c.random.stream (c.random.position + 3 * i)) ∧
      (updateAfter sqrt BOLTZ self n c).caller.velocities[i]? =
        some (velocityVec (velocityScale self)
          (trialVec sqrt (forceScale self) (noiseAmplitude sqrt BOLTZ self) x0 f im
            c.random.stream (c.random.position + 3 * i)) x0) := by
  obtain ⟨hc, hv, hfl, _, hx, hil⟩ := hs
  have hic : i < c.atomCoordinates.length := Nat.lt_of_lt_of_le hi hc
  have hiv : i < c.velocities.length := Nat.lt_of_lt_of_le hi hv
  have hif : i < c.forces.length := Nat.lt_of_lt_of_le hi hfl
  have hix : i < self.xPrime.length := Nat.lt_of_lt_of_le hi hx
  have him2 : i < (inverseMassesAfter self n c).length := by
    rw [length_inverseMassesAfter]; exact Nat.lt_of_lt_of_le hi hil
  have htrial := trialPositions_getElem? sqrt BOLTZ self n c i hi hix hic hif him2
  rw [← projectedPositions_none sqrt BOLTZ self n c hnone] at htrial
  have e1 : c.atomCoordinates[i] = x0 := by
    rw [List.getElem?_eq_getElem hic] at hx0
    exact Option.some.inj hx0
  have e2 : c.forces[i] = f := by
    rw [List.getElem?_eq_getElem hif] at hf
    exact Option.some.inj hf
  have e3 : (inverseMassesAfter self n c)[i] = im := by
    rw [List.getElem?_eq_getElem him2] at him
    exact Option.some.inj him
  rw [e1, e2, e3] at htrial
  refine ⟨updateAfter_atomCoordinates sqrt BOLTZ self n c i hi _ htrial hic, ?_⟩
  rw [updateAfter_velocities sqrt BOLTZ self n c i hi _ htrial hic hiv, e1]

end ReferenceBrownianDynamics

namespace ReferenceBrownianDynamics

theorem updateSeq_lengths (sqrt : R → R) (BOLTZ : RealOpenMM R)
    (calls : List (Nat × Caller R)) :
    ∀ self : ReferenceBrownianDynamics R, ProjectorInPlace self →
      (∀ call, call ∈ calls → Sized self call.1 call.2) →
      ∃ last, updateSeq sqrt BOLTZ self calls = some last ∧
        last.xPrime.length = self.xPrime.length ∧
        last.inverseMasses.length = self.inverseMasses.length ∧
        last.getReferenceConstraintAlgorithm = self.getReferenceConstraintAlgorithm := by
  induction calls with
  | nil =>
    intro self _ _
    exact ⟨self, rfl, rfl, rfl, rfl⟩
  | cons call calls ih =>
    intro self hp hs
    have h1 := update_eq_of_sized sqrt BOLTZ self call.1 call.2
      (hs call (List.mem_cons_self call calls)) hp
    obtain ⟨last, hlast, hx, hm, hq⟩ := ih (updateAfter sqrt BOLTZ self call.1 call.2).dynamics
      (updateAfter_projectorInPlace sqrt BOLTZ self call.1 call.2 hp)
      (fun k hk => updateAfter_sized sqrt BOLTZ self call.1 call.2 hp k.1 k.2
        (hs k (List.mem_cons_of_mem call hk)))
    refine ⟨last, ?_, ?_, ?_, ?_⟩
    · simp [updateSeq, h1, hlast]
    · rw [hx]
      simp only [updateAfter]
      exact length_projectedPositions sqrt BOLTZ self call.1 call.2 hp
    · rw [hm]
      simp only [updateAfter]
      exact length_inverseMassesAfter self call.1 call.2
    · rw [hq]
      rfl

end ReferenceBrownianDynamics

end Helpers

/-! ## The claims -/

section Claims
open RealOpenMM ReferenceBrownianDynamics
variable {R : Type} [LinearOrderedField R]

/-- C1: for every particle count, time step and temperature, the integrator constructed with
a friction `<= 0` reports the friction `1.0`, and the integrator constructed with a friction
`> 0` reports the supplied friction. -/
theorem C1_getFriction_after_construction (numberOfAtoms : Nat)
    (deltaT temperature : RealOpenMM R) (friction : R) (log : Log R) :
    (ctor numberOfAtoms deltaT (val friction) temperature log).1.getFriction =
      if friction ≤ 0 then one else val friction := by
  by_cases h : friction ≤ 0 <;> simp [ctor, getFriction, zero, h]

/-- C2 (amended): after `update`, for any inputs (any time step, 0 included, with or without a
constraint projector), every particle `i < numberOfAtoms` and axis `j` have
`velocities[i][j] = (1.0/deltaT) * (coordinates_after[i][j] - coordinates_before[i][j])`, the
product of line 184. -/
theorem C2_velocity_is_scaled_displacement (sqrt : R → R) (BOLTZ : RealOpenMM R)
    (self : ReferenceBrownianDynamics R) (n : Nat) (c : Caller R)
    (hs : Sized self n c) (hp : ProjectorInPlace self) :
    ∃ r, update sqrt BOLTZ self n c = some r ∧
      ∀ i, i < n → ∃ v x1 x0, r.caller.velocities[i]? = some v ∧
        r.caller.atomCoordinates[i]? = some x1 ∧ c.atomCoordinates[i]? = some x0 ∧
        ∀ j, v j = one / self.getDeltaT * (x1 j - x0 j) := by
  refine ⟨_, update_eq_of_sized sqrt BOLTZ self n c hs hp, ?_⟩
  intro i hi
  have hlen := length_projectedPositions sqrt BOLTZ self n c hp
  obtain ⟨hc, hv, _, _, hx, _⟩ := hs
  have hic : i < c.atomCoordinates.length := Nat.lt_of_lt_of_le hi hc
  have hiv : i < c.velocities.length := Nat.lt_of_lt_of_le hi hv
  have hip : i < (projectedPositions sqrt BOLTZ self n c).length := by
    rw [hlen]; exact Nat.lt_of_lt_of_le hi hx
  have hproj := List.getElem?_eq_getElem hip
  exact ⟨_, _, _, updateAfter_velocities sqrt BOLTZ self n c i hi _ hproj hic hiv,
    updateAfter_atomCoordinates sqrt BOLTZ self n c i hi _ hproj hic,
    List.getElem?_eq_getElem hic, fun _ => rfl⟩

/-- C2, as stated, fails when the time step is 0 and a constraint projector moves the particle:
within the caller's contract `update` returns, the velocity has no value, and
`velocities[0][0] * deltaT` is not the displacement `1`. -/
theorem C2_counterexample_zero_deltaT :
    Sized zeroStepProjected 1 originCaller ∧ ProjectorInPlace zeroStepProjected ∧
    zeroStepProjected.getDeltaT = zero ∧
    ∃ r, update sqrtQ (val 1) zeroStepProjected 1 originCaller = some r ∧
      ∃ v x1 x0, r.caller.velocities[0]? = some v ∧ r.caller.atomCoordinates[0]? = some x1 ∧
        originCaller.atomCoordinates[0]? = some x0 ∧
        v 0 * zeroStepProjected.getDeltaT ≠ x1 0 - x0 0 := by
  have hs : Sized zeroStepProjected 1 originCaller := by
    simp [Sized, zeroStepProjected, originCaller]
  have hp : ProjectorInPlace zeroStepProjected := by
    intro p hq k a x m
    simp only [zeroStepProjected, attach_getReferenceConstraintAlgorithm, Option.some.injEq] at hq
    subst hq
    simp [moveToOnes]
  have hproj : (projectedPositions sqrtQ (val 1) zeroStepProjected 1 originCaller)[0]? =
      some (vec3 1 1 1) := by
    simp [projectedPositions, zeroStepProjected, moveToOnes, trialPositions,
      length_rewritePrefix]
  refine ⟨hs, hp, by simp [zeroStepProjected, zero],
    _, update_eq_of_sized sqrtQ (val 1) zeroStepProjected 1 originCaller hs hp,
    _, _, _,
    updateAfter_velocities sqrtQ (val 1) zeroStepProjected 1 originCaller 0 (by decide) _ hproj
      (by simp [originCaller]) (by simp [originCaller]),
    updateAfter_atomCoordinates sqrtQ (val 1) zeroStepProjected 1 originCaller 0 (by decide) _
      hproj (by simp [originCaller]), rfl, ?_⟩
  simp [velocityVec, velocityScale, zeroStepProjected, vec3, originCaller]

/-- The amended C2 at the integrator with time step 0 and a projector: its hypotheses hold
there. -/
theorem C2_velocity_is_scaled_displacement_witness :
    Sized zeroStepProjected 1 originCaller ∧ ProjectorInPlace zeroStepProjected ∧
    ∃ r, update sqrtQ (val 1) zeroStepProjected 1 originCaller = some r ∧
      ∀ i, i < 1 → ∃ v x1 x0, r.caller.velocities[i]? = some v ∧
        r.caller.atomCoordinates[i]? = some x1 ∧ originCaller.atomCoordinates[i]? = some x0 ∧
        ∀ j, v j = one / zeroStepProjected.getDeltaT * (x1 j - x0 j) :=
  have hs : Sized zeroStepProjected 1 originCaller := by
    simp [Sized, zeroStepProjected, originCaller]
  have hp : ProjectorInPlace zeroStepProjected := by
    intro p hq k a x m
    simp only [zeroStepProjected, attach_getReferenceConstraintAlgorithm, Option.some.injEq] at hq
    subst hq
    simp [moveToOnes]
  ⟨hs, hp, C2_velocity_is_scaled_displacement sqrtQ (val 1) zeroStepProjected 1 originCaller
    hs hp⟩

/-- C3: with no constraint projector attached, after `update` the coordinate of every particle
`i < numberOfAtoms` on every axis `j` is `old_coordinates[i][j] + (deltaT/friction) *
inverseMass[i] * forces[i][j] + sqrt(2*kB*temperature*deltaT/friction) * sqrt(inverseMass[i]) *
z`, where `z` is the sample at position `3*i + j` of the step, `inverseMass[i]` the stored
inverse mass and `friction` the value of `getFriction()`. -/
theorem C3_unconstrained_coordinates (sqrt : R → R) (BOLTZ : RealOpenMM R)
    (self : ReferenceBrownianDynamics R) (n : Nat) (c : Caller R)
    (hs : Sized self n c) (hnone : self.getReferenceConstraintAlgorithm = none) :
    ∃ r, update sqrt BOLTZ self n c = some r ∧
      ∀ i, i < n → ∃ x1 x0 f im, r.caller.atomCoordinates[i]? = some x1 ∧
        c.atomCoordinates[i]? = some x0 ∧ c.forces[i]? = some f ∧
        r.dynamics.inverseMasses[i]? = some im ∧
        ∀ j : Fin 3, x1 j =
          x0 j + self.getDeltaT / r.dynamics.getFriction * im * f j +
            sqrtWith sqrt
                (two * BOLTZ * self.getTemperature * self.getDeltaT / r.dynamics.getFriction) *
              SQRT sqrt im * c.random.stream (c.random.position + 3 * i + j.val) := by
  have hp := projectorInPlace_of_none self hnone
  refine ⟨_, update_eq_of_sized sqrt BOLTZ self n c hs hp, ?_⟩
  intro i hi
  obtain ⟨hc, _, hf, _, hx, him⟩ := hs
  have hic : i < c.atomCoordinates.length := Nat.lt_of_lt_of_le hi hc
  have hif : i < c.forces.length := Nat.lt_of_lt_of_le hi hf
  have hix : i < self.xPrime.length := Nat.lt_of_lt_of_le hi hx
  have him2 : i < (inverseMassesAfter self n c).length := by
    rw [length_inverseMassesAfter]; exact Nat.lt_of_lt_of_le hi him
  have htrial := trialPositions_getElem? sqrt BOLTZ self n c i hi hix hic hif him2
  rw [← projectedPositions_none sqrt BOLTZ self n c hnone] at htrial
  refine ⟨_, _, _, _, updateAfter_atomCoordinates sqrt BOLTZ self n c i hi _ htrial hic,
    List.getElem?_eq_getElem hic, List.getElem?_eq_getElem hif,
    List.getElem?_eq_getElem him2, ?_⟩
  intro j
  rfl

/-- C3 at the example integrator: its hypotheses hold there. -/
theorem C3_unconstrained_coordinates_witness :
    Sized exampleDynamics 2 exampleCaller ∧
    exampleDynamics.getReferenceConstraintAlgorithm = none ∧
    ∃ r, update sqrtQ (val 1) exampleDynamics 2 exampleCaller = some r ∧
      ∀ i, i < 2 → ∃ x1 x0 f im, r.caller.atomCoordinates[i]? = some x1 ∧
        exampleCaller.atomCoordinates[i]? = some x0 ∧ exampleCaller.forces[i]? = some f ∧
        r.dynamics.inverseMasses[i]? = some im ∧
        ∀ j : Fin 3, x1 j =
          x0 j + exampleDynamics.getDeltaT / r.dynamics.getFriction * im * f j +
            sqrtWith sqrtQ
                (two * val 1 * exampleDynamics.getTemperature * exampleDynamics.getDeltaT /
                  r.dynamics.getFriction) *
              SQRT sqrtQ im *
              exampleCaller.random.stream (exampleCaller.random.position + 3 * i + j.val) :=
  have hs : Sized exampleDynamics 2 exampleCaller := by
    simp [Sized, exampleDynamics, exampleCaller]
  have hn : exampleDynamics.getReferenceConstraintAlgorithm = none := by
    simp [exampleDynamics]
  ⟨hs, hn, C3_unconstrained_coordinates sqrtQ (val 1) exampleDynamics 2 exampleCaller hs hn⟩

/-- C4, as stated, fails when the time step is 0: on a freshly constructed integrator with
temperature 0, no constraint projector and no force on the particle, `update` returns and the
velocity of the particle has no value, so it is not zero. -/
theorem C4_counterexample_zero_deltaT :
    Reachable sqrtQ (val 1) zeroStepDynamics ∧ Sized zeroStepDynamics 1 originCaller ∧
    zeroStepDynamics.getReferenceConstraintAlgorithm = none ∧
    zeroStepDynamics.getDeltaT = zero ∧
    zeroStepDynamics.getTemperature = zero ∧ originCaller.forces = [fun _ => zero] ∧
    ∃ r, update sqrtQ (val 1) zeroStepDynamics 1 originCaller = some r ∧
      ∃ v, r.caller.velocities[0]? = some v ∧ v 0 ≠ zero := by
  have hn : zeroStepDynamics.getReferenceConstraintAlgorithm = none := by
    simp [zeroStepDynamics]
  have hs : Sized zeroStepDynamics 1 originCaller := by
    simp [Sized, zeroStepDynamics, originCaller]
  have hp := projectorInPlace_of_none zeroStepDynamics hn
  have hproj : (projectedPositions sqrtQ (val 1) zeroStepDynamics 1 originCaller)[0]? =
      some (projectedPositions sqrtQ (val 1) zeroStepDynamics 1 originCaller)[0] := by
    simp [projectedPositions_none _ _ _ _ _ hn, trialPositions, length_rewritePrefix,
      zeroStepDynamics]
  refine ⟨Reachable.construct 1 0 1 0 [], hs, hn, by simp [zeroStepDynamics, zero],
    by simp [zeroStepDynamics, zero], by simp [originCaller, vec3_zero],
    _, update_eq_of_sized sqrtQ (val 1) zeroStepDynamics 1 originCaller hs hp, _,
    updateAfter_velocities sqrtQ (val 1) zeroStepDynamics 1 originCaller 0 (by decide) _ hproj
      (by simp [originCaller]) (by simp [originCaller]), ?_⟩
  simp [velocityVec, velocityScale, zeroStepDynamics, one, zero]

/-- C4 (amended): with temperature 0 and no constraint projector, `update` on a particle `i`
that carries no force leaves its coordinate on axis `j` unchanged when `2*kB`, the time step,
the friction (not 0), the stored inverse mass (not negative), the product
`(deltaT/friction) * inverseMass[i]`, the coordinate and the sample of the axis are numbers;
when moreover `1.0/deltaT` is a number, the velocity component is set to zero. -/
theorem C4_particle_at_rest (sqrt : R → R) (BOLTZ : RealOpenMM R)
    (self : ReferenceBrownianDynamics R) (n : Nat) (c : Caller R) (i : Nat) (x0 : RealVec R)
    (hsqrt : sqrt 0 = 0) (hs : Sized self n c)
    (hnone : self.getReferenceConstraintAlgorithm = none)
    (hT : self.getTemperature = zero) (hi : i < n)
    (hx0 : c.atomCoordinates[i]? = some x0) (hF : c.forces[i]? = some (fun _ => zero)) :
    ∃ r v x1 im, update sqrt BOLTZ self n c = some r ∧
      r.dynamics.inverseMasses[i]? = some im ∧
      r.caller.velocities[i]? = some v ∧ r.caller.atomCoordinates[i]? = some x1 ∧
      ∀ j : Fin 3, ∀ b d f q p y z, two * BOLTZ = val b → self.getDeltaT = val d →
        self.getFriction = val f → f ≠ 0 → im = val q → 0 ≤ q →
        self.getDeltaT / self.getFriction * im = val p → x0 j = val y →
        c.random.stream (c.random.position + 3 * i + j.val) = val z →
        x1 j = x0 j ∧ ∀ w, one / self.getDeltaT = val w → v j = zero := by
  have hp := projectorInPlace_of_none self hnone
  have hil : i < (inverseMassesAfter self n c).length := by
    rw [length_inverseMassesAfter]; exact Nat.lt_of_lt_of_le hi hs.2.2.2.2.2
  have him := List.getElem?_eq_getElem hil
  obtain ⟨hcoord, hvel⟩ := updateAfter_coordinates_none sqrt BOLTZ self n c hs hnone
    i hi x0 (fun _ => zero) _ hx0 hF him
  refine ⟨_, _, _, _, update_eq_of_sized sqrt BOLTZ self n c hs hp, him, hvel, hcoord, ?_⟩
  intro j b d f q p y z hb hd hf hfne hq hq0 hfs hy hz
  have hx1 : trialVec sqrt (forceScale self) (noiseAmplitude sqrt BOLTZ self) x0
      (fun _ => zero) (inverseMassesAfter self n c)[i] c.random.stream
      (c.random.position + 3 * i) j = x0 j := by
    simp only [trialVec, forceScale, noiseAmplitude]
    rw [hfs, hT, hb, hd, hf, hq, hy, hz]
    simp [zero, SQRT, hfne, hsqrt, sqrtWith_val_of_nonneg sqrt q hq0]
  refine ⟨hx1, ?_⟩
  intro w hw
  simp only [velocityVec, velocityScale]
  rw [hx1, hw, hy]
  simp [zero]

/-- The amended C4 at a two-particle integrator constructed with the friction `-3` (corrected
to 1), for the second particle, of mass 4 at `(4, 5, 6)`: its hypotheses hold there, and the
particle stays at `(4, 5, 6)` with velocity zero. -/
theorem C4_particle_at_rest_witness :
    sqrtQ 0 = 0 ∧
    Sized (ctor 2 (val (1 / 2)) (val (-3)) (val 0) []).1 2 restingCaller ∧
    (ctor 2 (val (1 / 2 : ℚ)) (val (-3)) (val 0) []).1.getReferenceConstraintAlgorithm = none ∧
    (ctor 2 (val (1 / 2 : ℚ)) (val (-3)) (val 0) []).1.getTemperature = zero ∧ 1 < 2 ∧
    restingCaller.atomCoordinates[1]? = some (vec3 4 5 6) ∧
    restingCaller.forces[1]? = some (fun _ => zero) ∧
    ∃ r v x1, update sqrtQ (val 1) (ctor 2 (val (1 / 2)) (val (-3)) (val 0) []).1 2
        restingCaller = some r ∧
      r.dynamics.inverseMasses[1]? = some (val (1 / 4)) ∧
      r.caller.velocities[1]? = some v ∧ r.caller.atomCoordinates[1]? = some x1 ∧
      ∀ j : Fin 3, x1 j = (vec3 4 5 6 : RealVec ℚ) j ∧ v j = zero := by
  have h1 : Sized (ctor 2 (val (1 / 2 : ℚ)) (val (-3)) (val 0) []).1 2 restingCaller := by
    simp [Sized, restingCaller, exampleCaller]
  have h2 : (ctor 2 (val (1 / 2 : ℚ)) (val (-3)) (val 0) []).1.getReferenceConstraintAlgorithm =
      none := by simp
  have h3 : (ctor 2 (val (1 / 2 : ℚ)) (val (-3)) (val 0) []).1.getTemperature = zero := by
    simp [zero]
  have h4 : restingCaller.forces[1]? = some (fun _ => zero) := by
    simp [restingCaller, vec3_zero]
  refine ⟨sqrtQ_zero, h1, h2, h3, by decide, rfl, h4, ?_⟩
  obtain ⟨r, v, x1, im, hu, him, hv, hx, h⟩ :=
    C4_particle_at_rest sqrtQ (val 1) (ctor 2 (val (1 / 2)) (val (-3)) (val 0) []).1 2
      restingCaller 1 (vec3 4 5 6) sqrtQ_zero h1 h2 h3 (by decide) rfl h4
  have hr := update_some_eq sqrtQ (val 1) _ 2 restingCaller r h1
    (projectorInPlace_of_none _ h2) hu
  have him2 : (inverseMassesAfter (ctor 2 (val (1 / 2 : ℚ)) (val (-3)) (val 0) []).1 2
      restingCaller)[1]? = some (val (1 / 4)) :=
    inverseMassesAfter_first _ 2 restingCaller (by simp) 1 (by decide) (by simp) 4 rfl
      (by norm_num)
  have himv : im = val (1 / 4) := by
    rw [hr] at him
    have h5 : (inverseMassesAfter (ctor 2 (val (1 / 2 : ℚ)) (val (-3)) (val 0) []).1 2
        restingCaller)[1]? = some im := him
    rw [him2] at h5
    exact (Option.some.inj h5).symm
  subst himv
  refine ⟨r, v, x1, hu, him, hv, hx, ?_⟩
  intro j
  have hfr : (ctor 2 (val (1 / 2 : ℚ)) (val (-3)) (val 0) []).1.getFriction = val 1 := by
    simp [getFriction, zero, one]
  have hdt : (ctor 2 (val (1 / 2 : ℚ)) (val (-3)) (val 0) []).1.getDeltaT = val (1 / 2) := by
    simp
  obtain ⟨y, hy⟩ := (RealOpenMM.isVal_iff _).mp (isVal_vec3 4 5 6 j)
  have h6 : (1 / 2 : ℚ) ≠ 0 := by norm_num
  have h7 : (1 : ℚ) ≠ 0 := one_ne_zero
  obtain ⟨hx1, hv1⟩ := h j (2 * 1) (1 / 2) 1 (1 / 4) ((1 / 2) / 1 * (1 / 4)) y
    ((0 + 3 * 1 + j.val : ℕ) : ℚ) rfl hdt hfr h7 rfl (by norm_num)
    (by rw [hdt, hfr, val_div_val_of_ne _ _ h7, val_mul_val]) hy rfl
  exact ⟨hx1, hv1 (1 / (1 / 2)) (by rw [hdt, one, val_div_val_of_ne _ _ h6])⟩

/-- C5: on the first `update` call (step counter 0), for every particle `i < numberOfAtoms`
with `masses[i] > 0` the inverse-mass entry `i` becomes `1/masses[i]`, and the trial position of
the same step, which the constraint projector receives if one is attached, is computed with
that value. -/
theorem C5_first_call_inverts_masses (sqrt : R → R) (BOLTZ : RealOpenMM R)
    (self : ReferenceBrownianDynamics R) (n : Nat) (c : Caller R)
    (hs : Sized self n c) (hp : ProjectorInPlace self) (h0 : self.getTimeStep = 0) :
    ∃ r trial, update sqrt BOLTZ self n c = some r ∧
      (r.dynamics.xPrime =
        match self.getReferenceConstraintAlgorithm with
        | some p => p n c.atomCoordinates trial r.dynamics.inverseMasses
        | none => trial) ∧
      ∀ i, i < n → ∀ m : R, c.masses[i]? = some (val m) → 0 < m →
        r.dynamics.inverseMasses[i]? = some (val (1 / m)) ∧
        ∃ x x0 f, trial[i]? = some x ∧ c.atomCoordinates[i]? = some x0 ∧
          c.forces[i]? = some f ∧
          ∀ j : Fin 3, x j =
            x0 j + self.forceScale * val (1 / m) * f j +
              self.noiseAmplitude sqrt BOLTZ * SQRT sqrt (val (1 / m)) *
                c.random.stream (c.random.position + 3 * i + j.val) := by
  refine ⟨_, trialPositions sqrt BOLTZ self n c,
    update_eq_of_sized sqrt BOLTZ self n c hs hp, updateAfter_xPrime sqrt BOLTZ self n c, ?_⟩
  intro i hi m hm hpos
  obtain ⟨hc, _, hf, _, hx, him⟩ := hs
  have hic : i < c.atomCoordinates.length := Nat.lt_of_lt_of_le hi hc
  have hif : i < c.forces.length := Nat.lt_of_lt_of_le hi hf
  have hix : i < self.xPrime.length := Nat.lt_of_lt_of_le hi hx
  have hii : i < self.inverseMasses.length := Nat.lt_of_lt_of_le hi him
  have him2 : i < (inverseMassesAfter self n c).length := by
    rw [length_inverseMassesAfter]; exact hii
  have hinv := inverseMassesAfter_first self n c h0 i hi hii m hm hpos
  have hinv2 : (inverseMassesAfter self n c)[i] = val (1 / m) := by
    rw [List.getElem?_eq_getElem him2] at hinv
    exact Option.some.inj hinv
  refine ⟨hinv, _, _, _, trialPositions_getElem? sqrt BOLTZ self n c i hi hix hic hif him2,
    List.getElem?_eq_getElem hic, List.getElem?_eq_getElem hif, ?_⟩
  intro j
  rw [hinv2]
  rfl

/-- C5 at the example integrator: its hypotheses hold there, and the masses `[2, 4]` give the
inverse masses `[1/2, 1/4]`. -/
theorem C5_first_call_inverts_masses_witness :
    Sized exampleDynamics 2 exampleCaller ∧ ProjectorInPlace exampleDynamics ∧
    exampleDynamics.getTimeStep = 0 ∧
    (∃ r trial, update sqrtQ (val 1) exampleDynamics 2 exampleCaller = some r ∧
      (r.dynamics.xPrime =
        match exampleDynamics.getReferenceConstraintAlgorithm with
        | some p => p 2 exampleCaller.atomCoordinates trial r.dynamics.inverseMasses
        | none => trial) ∧
      ∀ i, i < 2 → ∀ m : ℚ, exampleCaller.masses[i]? = some (val m) → 0 < m →
        r.dynamics.inverseMasses[i]? = some (val (1 / m)) ∧
        ∃ x x0 f, trial[i]? = some x ∧ exampleCaller.atomCoordinates[i]? = some x0 ∧
          exampleCaller.forces[i]? = some f ∧
          ∀ j : Fin 3, x j =
            x0 j + exampleDynamics.forceScale * val (1 / m) * f j +
              exampleDynamics.noiseAmplitude sqrtQ (val 1) * SQRT sqrtQ (val (1 / m)) *
                exampleCaller.random.stream (exampleCaller.random.position + 3 * i + j.val)) ∧
    (update sqrtQ (val 1) exampleDynamics 2 exampleCaller).map
      (fun r => r.dynamics.inverseMasses) = some [val (1 / 2), val (1 / 4)] :=
  have hs : Sized exampleDynamics 2 exampleCaller := by
    simp [Sized, exampleDynamics, exampleCaller]
  have hp : ProjectorInPlace exampleDynamics :=
    projectorInPlace_of_none _ (by simp [exampleDynamics])
  have h0 : exampleDynamics.getTimeStep = 0 := by simp [exampleDynamics]
  ⟨hs, hp, h0,
    C5_first_call_inverts_masses sqrtQ (val 1) exampleDynamics 2 exampleCaller hs hp h0, by
      rw [update_eq_of_sized sqrtQ (val 1) exampleDynamics 2 exampleCaller hs hp]
      simp only [Option.map_some', updateAfter, Option.some.injEq]
      apply List.ext_getElem?
      intro i
      rcases i with _ | _ | i
      · rw [inverseMassesAfter_first exampleDynamics 2 exampleCaller h0 0 (by decide)
          (by simp [exampleDynamics]) 2 rfl (by norm_num)]
        rfl
      · rw [inverseMassesAfter_first exampleDynamics 2 exampleCaller h0 1 (by decide)
          (by simp [exampleDynamics]) 4 rfl (by norm_num)]
        rfl
      · simp [inverseMassesAfter, getElem?_rewritePrefix, exampleDynamics]⟩

/-- C6: on the first `update` call a diagnostic is emitted if and only if some particle
`i < numberOfAtoms` has a mass `<= 0`; it is then one message for the whole call, and the
indices it mentions are those of the particles with a mass `<= 0`. On a later call no
diagnostic is emitted. In every case `update` completes the step, returns `DefaultReturn`
and advances the step counter by one. -/
theorem C6_mass_diagnostic (sqrt : R → R) (BOLTZ : RealOpenMM R)
    (self : ReferenceBrownianDynamics R) (n : Nat) (c : Caller R)
    (hs : Sized self n c) (hp : ProjectorInPlace self) :
    ∃ r, update sqrt BOLTZ self n c = some r ∧
      r.returnValue = ReferenceDynamics.DefaultReturn ∧
      r.dynamics.getTimeStep = self.getTimeStep + 1 ∧
      (self.getTimeStep = 0 → (∃ i, i < n ∧ massInvalid c.masses i = true) →
        ∃ message, r.caller.log = c.log ++ [message] ∧
          ∀ i, MessageItem.int i ∈ message ↔ (i < n ∧ massInvalid c.masses i = true)) ∧
      (self.getTimeStep = 0 → (¬ ∃ i, i < n ∧ massInvalid c.masses i = true) →
        r.caller.log = c.log) ∧
      (self.getTimeStep ≠ 0 → r.caller.log = c.log) := by
  refine ⟨_, update_eq_of_sized sqrt BOLTZ self n c hs hp, rfl, rfl, ?_, ?_, ?_⟩
  · intro h0 hex
    have hne := (massErrors_length_ne_zero c.masses n).mpr hex
    refine ⟨massMessage c.masses n, ?_, int_mem_massMessage c.masses n⟩
    simp [updateAfter, logAfter, h0, hne, printError]
  · intro h0 hnex
    have hne : ¬ (massErrors c.masses n).length ≠ 0 := fun h =>
      hnex ((massErrors_length_ne_zero c.masses n).mp h)
    simp only [updateAfter, logAfter, h0, hne, and_false, if_false]
  · intro h1
    simp only [updateAfter, logAfter, h1, false_and, if_false]

/-- C6 at the example integrator with the masses `[2, 0]`: its hypotheses hold there. -/
theorem C6_mass_diagnostic_witness :
    Sized exampleDynamics 2 invalidMassCaller ∧ ProjectorInPlace exampleDynamics ∧
    ∃ r, update sqrtQ (val 1) exampleDynamics 2 invalidMassCaller = some r ∧
      r.returnValue = ReferenceDynamics.DefaultReturn ∧
      r.dynamics.getTimeStep = exampleDynamics.getTimeStep + 1 ∧
      (exampleDynamics.getTimeStep = 0 →
        (∃ i, i < 2 ∧ massInvalid invalidMassCaller.masses i = true) →
        ∃ message, r.caller.log = invalidMassCaller.log ++ [message] ∧
          ∀ i, MessageItem.int i ∈ message ↔
            (i < 2 ∧ massInvalid invalidMassCaller.masses i = true)) ∧
      (exampleDynamics.getTimeStep = 0 →
        (¬ ∃ i, i < 2 ∧ massInvalid invalidMassCaller.masses i = true) →
        r.caller.log = invalidMassCaller.log) ∧
      (exampleDynamics.getTimeStep ≠ 0 → r.caller.log = invalidMassCaller.log) :=
  have hs : Sized exampleDynamics 2 invalidMassCaller := by
    simp [Sized, exampleDynamics, invalidMassCaller, exampleCaller]
  have hp : ProjectorInPlace exampleDynamics :=
    projectorInPlace_of_none _ (by simp [exampleDynamics])
  ⟨hs, hp, C6_mass_diagnostic sqrtQ (val 1) exampleDynamics 2 invalidMassCaller hs hp⟩

/-- C7: every sequence of `N` `update` calls within the caller's contract, whatever their
inputs, returns and leaves the step counter at its value before the sequence plus `N`; from a
freshly constructed integrator it is `N`. -/
theorem C7_step_counter (sqrt : R → R) (BOLTZ : RealOpenMM R)
    (self : ReferenceBrownianDynamics R) (calls : List (Nat × Caller R))
    (hp : ProjectorInPlace self) (hs : ∀ call, call ∈ calls → Sized self call.1 call.2) :
    ∃ last, updateSeq sqrt BOLTZ self calls = some last ∧
      last.getTimeStep = self.getTimeStep + calls.length ∧
      ∀ (numberOfAtoms : Nat) (deltaT friction temperature : RealOpenMM R) (log : Log R),
        self = (ctor numberOfAtoms deltaT friction temperature log).1 →
        last.getTimeStep = calls.length := by
  obtain ⟨last, hlast, htime⟩ := updateSeq_timeStep sqrt BOLTZ calls self hp hs
  refine ⟨last, hlast, htime, ?_⟩
  intro numberOfAtoms deltaT friction temperature log hself
  rw [htime, hself, ctor_getTimeStep, Nat.zero_add]

/-- C7 at the example integrator, for three calls of which the first has a mass 0: its
hypotheses hold there. -/
theorem C7_step_counter_witness :
    ProjectorInPlace exampleDynamics ∧
    (∀ call, call ∈ [(2, invalidMassCaller), (2, exampleCaller), (1, restingCaller)] →
      Sized exampleDynamics call.1 call.2) ∧
    ∃ last, updateSeq sqrtQ (val 1) exampleDynamics
        [(2, invalidMassCaller), (2, exampleCaller), (1, restingCaller)] = some last ∧
      last.getTimeStep = exampleDynamics.getTimeStep +
        [(2, invalidMassCaller), (2, exampleCaller), (1, restingCaller)].length ∧
      ∀ (numberOfAtoms : Nat) (deltaT friction temperature : RealOpenMM ℚ) (log : Log ℚ),
        exampleDynamics = (ctor numberOfAtoms deltaT friction temperature log).1 →
        last.getTimeStep =
          [(2, invalidMassCaller), (2, exampleCaller), (1, restingCaller)].length :=
  have hp : ProjectorInPlace exampleDynamics :=
    projectorInPlace_of_none _ (by simp [exampleDynamics])
  have hs : ∀ call, call ∈ [(2, invalidMassCaller), (2, exampleCaller), (1, restingCaller)] →
      Sized exampleDynamics call.1 call.2 := by
    intro call hcall
    simp only [List.mem_cons, List.mem_singleton, List.not_mem_nil, or_false] at hcall
    rcases hcall with rfl | rfl | rfl <;>
      simp [Sized, exampleDynamics, invalidMassCaller, restingCaller, exampleCaller]
  ⟨hp, hs, C7_step_counter sqrtQ (val 1) exampleDynamics _ hp hs⟩

/-- C8: on a second or later `update` call (step counter not 0) with no constraint projector
attached, whatever masses array is passed, the inverse-mass table after the call is the table
before the call, and the coordinates are computed with the inverse masses of that table. -/
theorem C8_inverse_masses_kept (sqrt : R → R) (BOLTZ : RealOpenMM R)
    (self : ReferenceBrownianDynamics R) (n : Nat) (c : Caller R)
    (h1 : self.getTimeStep ≠ 0) (hnone : self.getReferenceConstraintAlgorithm = none)
    (hc : n ≤ c.atomCoordinates.length) (hv : n ≤ c.velocities.length)
    (hf : n ≤ c.forces.length) (hx : n ≤ self.xPrime.length)
    (him : n ≤ self.inverseMasses.length) :
    ∃ r, update sqrt BOLTZ self n c = some r ∧
      r.dynamics.inverseMasses = self.inverseMasses ∧
      ∀ i, i < n → ∃ x1 x0 f im, r.caller.atomCoordinates[i]? = some x1 ∧
        c.atomCoordinates[i]? = some x0 ∧ c.forces[i]? = some f ∧
        self.inverseMasses[i]? = some im ∧
        ∀ j : Fin 3, x1 j =
          x0 j + self.forceScale * im * f j +
            self.noiseAmplitude sqrt BOLTZ * SQRT sqrt im *
              c.random.stream (c.random.position + 3 * i + j.val) := by
  have hkeep : inverseMassesAfter self n c = self.inverseMasses := by
    simp [inverseMassesAfter, h1]
  have hlen : n ≤ (projectedPositions sqrt BOLTZ self n c).length := by
    rw [length_projectedPositions sqrt BOLTZ self n c (projectorInPlace_of_none self hnone)]
    exact hx
  refine ⟨_, update_eq sqrt BOLTZ self n c hc hv hf (fun h0 => absurd h0 h1) hx him hlen,
    hkeep, ?_⟩
  intro i hi
  have hic : i < c.atomCoordinates.length := Nat.lt_of_lt_of_le hi hc
  have hif : i < c.forces.length := Nat.lt_of_lt_of_le hi hf
  have hix : i < self.xPrime.length := Nat.lt_of_lt_of_le hi hx
  have hii : i < self.inverseMasses.length := Nat.lt_of_lt_of_le hi him
  have him2 : i < (inverseMassesAfter self n c).length := by
    rw [hkeep]; exact hii
  have htrial := trialPositions_getElem? sqrt BOLTZ self n c i hi hix hic hif him2
  rw [← projectedPositions_none sqrt BOLTZ self n c hnone] at htrial
  refine ⟨_, _, _, _, updateAfter_atomCoordinates sqrt BOLTZ self n c i hi _ htrial hic,
    List.getElem?_eq_getElem hic, List.getElem?_eq_getElem hif,
    List.getElem?_eq_getElem hii, ?_⟩
  intro j
  simp only [trialVec, hkeep]

/-- C8 at the example integrator after one step, called with an empty masses array: its
hypotheses hold there. -/
theorem C8_inverse_masses_kept_witness :
    steppedDynamics.getTimeStep ≠ 0 ∧ steppedDynamics.getReferenceConstraintAlgorithm = none ∧
    2 ≤ noMassesCaller.atomCoordinates.length ∧ 2 ≤ noMassesCaller.velocities.length ∧
    2 ≤ noMassesCaller.forces.length ∧ 2 ≤ steppedDynamics.xPrime.length ∧
    2 ≤ steppedDynamics.inverseMasses.length ∧
    ∃ r, update sqrtQ (val 1) steppedDynamics 2 noMassesCaller = some r ∧
      r.dynamics.inverseMasses = steppedDynamics.inverseMasses ∧
      ∀ i, i < 2 → ∃ x1 x0 f im, r.caller.atomCoordinates[i]? = some x1 ∧
        noMassesCaller.atomCoordinates[i]? = some x0 ∧ noMassesCaller.forces[i]? = some f ∧
        steppedDynamics.inverseMasses[i]? = some im ∧
        ∀ j : Fin 3, x1 j =
          x0 j + steppedDynamics.forceScale * im * f j +
            steppedDynamics.noiseAmplitude sqrtQ (val 1) * SQRT sqrtQ im *
              noMassesCaller.random.stream (noMassesCaller.random.position + 3 * i + j.val) :=
  have hp : ProjectorInPlace exampleDynamics :=
    projectorInPlace_of_none _ (by simp [exampleDynamics])
  have h1 : steppedDynamics.getTimeStep ≠ 0 := by
    rw [steppedDynamics_eq]
    simp [updateAfter, ReferenceDynamics.getTimeStep, ReferenceDynamics.incrementTimeStep]
  have h2 : steppedDynamics.getReferenceConstraintAlgorithm = none := by
    rw [steppedDynamics_eq]
    simp [updateAfter, ReferenceDynamics.getReferenceConstraintAlgorithm,
      ReferenceDynamics.incrementTimeStep, exampleDynamics, ctor_fst, ReferenceDynamics.ctor]
  have h3 : 2 ≤ noMassesCaller.atomCoordinates.length := by
    simp [noMassesCaller, exampleCaller]
  have h4 : 2 ≤ noMassesCaller.velocities.length := by
    simp [noMassesCaller, exampleCaller]
  have h5 : 2 ≤ noMassesCaller.forces.length := by
    simp [noMassesCaller, exampleCaller]
  have h6 : 2 ≤ steppedDynamics.xPrime.length := by
    rw [steppedDynamics_eq]
    simp only [updateAfter]
    rw [length_projectedPositions sqrtQ (val 1) exampleDynamics 2 exampleCaller hp]
    simp [exampleDynamics]
  have h7 : 2 ≤ steppedDynamics.inverseMasses.length := by
    rw [steppedDynamics_eq]
    simp only [updateAfter]
    rw [length_inverseMassesAfter]
    simp [exampleDynamics]
  ⟨h1, h2, h3, h4, h5, h6, h7,
    C8_inverse_masses_kept sqrtQ (val 1) steppedDynamics 2 noMassesCaller h1 h2 h3 h4 h5 h6 h7⟩

/-- C10: `update` with `numberOfAtoms = n` consumes exactly `3*n` samples of the random
stream, whatever the temperature and the inverse masses; the `k`-th sample of the step enters
the trial position of particle `k div 3` on axis `k mod 3`, and no other entry: replacing that
one sample leaves every other entry of the trial positions as it was. -/
theorem C10_random_consumption (sqrt : R → R) (BOLTZ : RealOpenMM R)
    (self : ReferenceBrownianDynamics R) (n : Nat) (c : Caller R)
    (hs : Sized self n c) (hp : ProjectorInPlace self) :
    ∃ r trial, update sqrt BOLTZ self n c = some r ∧
      r.caller.random.stream = c.random.stream ∧
      r.caller.random.position = c.random.position + 3 * n ∧
      (r.dynamics.xPrime =
        match self.getReferenceConstraintAlgorithm with
        | some p => p n c.atomCoordinates trial r.dynamics.inverseMasses
        | none => trial) ∧
      (∀ k, k < 3 * n → ∃ x x0 f im, trial[k / 3]? = some x ∧
        c.atomCoordinates[k / 3]? = some x0 ∧ c.forces[k / 3]? = some f ∧
        r.dynamics.inverseMasses[k / 3]? = some im ∧
        x (sampleAxis k) =
          x0 (sampleAxis k) + self.forceScale * im * f (sampleAxis k) +
            self.noiseAmplitude sqrt BOLTZ * SQRT sqrt im *
              c.random.stream (c.random.position + k)) ∧
      ∀ (other : Nat → RealOpenMM R) (k : Nat), k < 3 * n →
        (∀ q, q ≠ c.random.position + k → other q = c.random.stream q) →
        ∃ r2 trial2,
          update sqrt BOLTZ self n
            { c with random := { stream := other, position := c.random.position } } = some r2 ∧
          (r2.dynamics.xPrime =
            match self.getReferenceConstraintAlgorithm with
            | some p => p n c.atomCoordinates trial2 r2.dynamics.inverseMasses
            | none => trial2) ∧
          ∀ i, i < n → ∀ j : Fin 3, 3 * i + j.val ≠ k →
            ∃ x x2, trial[i]? = some x ∧ trial2[i]? = some x2 ∧ x2 j = x j := by
  have hs0 := hs
  obtain ⟨hc, _, hf, _, hx, him⟩ := hs
  have bounds : ∀ i, i < n → i < c.atomCoordinates.length ∧ i < c.forces.length ∧
      i < self.xPrime.length ∧ i < (inverseMassesAfter self n c).length := by
    intro i hi
    refine ⟨Nat.lt_of_lt_of_le hi hc, Nat.lt_of_lt_of_le hi hf, Nat.lt_of_lt_of_le hi hx, ?_⟩
    rw [length_inverseMassesAfter]
    exact Nat.lt_of_lt_of_le hi him
  refine ⟨_, trialPositions sqrt BOLTZ self n c,
    update_eq_of_sized sqrt BOLTZ self n c hs0 hp, rfl, rfl,
    updateAfter_xPrime sqrt BOLTZ self n c, ?_, ?_⟩
  · intro k hk
    have hi : k / 3 < n := by omega
    obtain ⟨hic, hif, hix, him2⟩ := bounds (k / 3) hi
    refine ⟨_, _, _, _,
      trialPositions_getElem? sqrt BOLTZ self n c (k / 3) hi hix hic hif him2,
      List.getElem?_eq_getElem hic, List.getElem?_eq_getElem hif,
      List.getElem?_eq_getElem him2, ?_⟩
    have hpos : c.random.position + 3 * (k / 3) + (sampleAxis k).val = c.random.position + k := by
      simp only [sampleAxis]
      omega
    simp only [trialVec, hpos]
  · intro other k _ hother
    refine ⟨_, trialPositions sqrt BOLTZ self n
        { c with random := { stream := other, position := c.random.position } },
      update_eq_of_sized sqrt BOLTZ self n _ hs0 hp, updateAfter_xPrime sqrt BOLTZ self n _, ?_⟩
    intro i hi j hne
    obtain ⟨hic, hif, hix, him2⟩ := bounds i hi
    refine ⟨_, _, trialPositions_getElem? sqrt BOLTZ self n c i hi hix hic hif him2,
      trialPositions_getElem? sqrt BOLTZ self n
        { c with random := { stream := other, position := c.random.position } }
        i hi hix hic hif him2, ?_⟩
    have hq : c.random.position + 3 * i + j.val ≠ c.random.position + k := by omega
    simp only [trialVec, hother _ hq]
    rfl

/-- C10 at the example integrator: its hypotheses hold there. -/
theorem C10_random_consumption_witness :
    Sized exampleDynamics 2 exampleCaller ∧ ProjectorInPlace exampleDynamics ∧
    ∃ r trial, update sqrtQ (val 1) exampleDynamics 2 exampleCaller = some r ∧
      r.caller.random.stream = exampleCaller.random.stream ∧
      r.caller.random.position = exampleCaller.random.position + 3 * 2 ∧
      (r.dynamics.xPrime =
        match exampleDynamics.getReferenceConstraintAlgorithm with
        | some p => p 2 exampleCaller.atomCoordinates trial r.dynamics.inverseMasses
        | none => trial) ∧
      (∀ k, k < 3 * 2 → ∃ x x0 f im, trial[k / 3]? = some x ∧
        exampleCaller.atomCoordinates[k / 3]? = some x0 ∧
        exampleCaller.forces[k / 3]? = some f ∧
        r.dynamics.inverseMasses[k / 3]? = some im ∧
        x (sampleAxis k) =
          x0 (sampleAxis k) + exampleDynamics.forceScale * im * f (sampleAxis k) +
            exampleDynamics.noiseAmplitude sqrtQ (val 1) * SQRT sqrtQ im *
              exampleCaller.random.stream (exampleCaller.random.position + k)) ∧
      ∀ (other : Nat → RealOpenMM ℚ) (k : Nat), k < 3 * 2 →
        (∀ q, q ≠ exampleCaller.random.position + k →
          other q = exampleCaller.random.stream q) →
        ∃ r2 trial2,
          update sqrtQ (val 1) exampleDynamics 2
            { exampleCaller with
              random := { stream := other, position := exampleCaller.random.position } } =
            some r2 ∧
          (r2.dynamics.xPrime =
            match exampleDynamics.getReferenceConstraintAlgorithm with
            | some p => p 2 exampleCaller.atomCoordinates trial2 r2.dynamics.inverseMasses
            | none => trial2) ∧
          ∀ i, i < 2 → ∀ j : Fin 3, 3 * i + j.val ≠ k →
            ∃ x x2, trial[i]? = some x ∧ trial2[i]? = some x2 ∧ x2 j = x j :=
  have hs : Sized exampleDynamics 2 exampleCaller := by
    simp [Sized, exampleDynamics, exampleCaller]
  have hp : ProjectorInPlace exampleDynamics :=
    projectorInPlace_of_none _ (by simp [exampleDynamics])
  ⟨hs, hp, C10_random_consumption sqrtQ (val 1) exampleDynamics 2 exampleCaller hs hp⟩

/-- C11: `update` computes the unconstrained trial positions of the step-4 formula,
`trial[i][j] = coordinates_before[i][j] + (deltaT/friction) * inverseMass[i] * forces[i][j] +
sqrt(2*kB*temperature*deltaT/friction) * sqrt(inverseMass[i]) * z` with `z` the sample at
position `3*i + j` of the step; with a constraint projector attached it applies the projector
once, to `numberOfAtoms`, the coordinates before the call, these trial positions and the
inverse-mass table, and commits the output: `coordinates_after[i][j] = projected[i][j]` and
`velocities[i][j] = (projected[i][j] - coordinates_before[i][j]) * (1/deltaT)`. With no
projector it commits the trial positions. -/
theorem C11_projector_commit (sqrt : R → R) (BOLTZ : RealOpenMM R)
    (self : ReferenceBrownianDynamics R) (n : Nat) (c : Caller R)
    (hs : Sized self n c) (hp : ProjectorInPlace self) :
    ∃ r trial, update sqrt BOLTZ self n c = some r ∧
      (∀ i, i < n → ∃ x x0 f im, trial[i]? = some x ∧ c.atomCoordinates[i]? = some x0 ∧
        c.forces[i]? = some f ∧ r.dynamics.inverseMasses[i]? = some im ∧
        ∀ j : Fin 3, x j =
          x0 j + self.getDeltaT / self.getFriction * im * f j +
            sqrtWith sqrt
                (two * BOLTZ * self.getTemperature * self.getDeltaT / self.getFriction) *
              SQRT sqrt im * c.random.stream (c.random.position + 3 * i + j.val)) ∧
      (∀ p, self.getReferenceConstraintAlgorithm = some p →
        r.dynamics.xPrime = p n c.atomCoordinates trial r.dynamics.inverseMasses ∧
        ∀ i, i < n → ∃ y x0 v,
          (p n c.atomCoordinates trial r.dynamics.inverseMasses)[i]? = some y ∧
          c.atomCoordinates[i]? = some x0 ∧ r.caller.atomCoordinates[i]? = some y ∧
          r.caller.velocities[i]? = some v ∧
          ∀ j, v j = (y j - x0 j) * (one / self.getDeltaT)) ∧
      (self.getReferenceConstraintAlgorithm = none →
        r.dynamics.xPrime = trial ∧
        ∀ i, i < n → r.caller.atomCoordinates[i]? = trial[i]?) := by
  have hs0 := hs
  obtain ⟨hc, hv, hf, _, hx, him⟩ := hs
  have hlen := length_projectedPositions sqrt BOLTZ self n c hp
  refine ⟨_, trialPositions sqrt BOLTZ self n c,
    update_eq_of_sized sqrt BOLTZ self n c hs0 hp, ?_, ?_, ?_⟩
  · intro i hi
    have hic : i < c.atomCoordinates.length := Nat.lt_of_lt_of_le hi hc
    have hif : i < c.forces.length := Nat.lt_of_lt_of_le hi hf
    have hix : i < self.xPrime.length := Nat.lt_of_lt_of_le hi hx
    have him2 : i < (inverseMassesAfter self n c).length := by
      rw [length_inverseMassesAfter]; exact Nat.lt_of_lt_of_le hi him
    exact ⟨_, _, _, _, trialPositions_getElem? sqrt BOLTZ self n c i hi hix hic hif him2,
      List.getElem?_eq_getElem hic, List.getElem?_eq_getElem hif,
      List.getElem?_eq_getElem him2, fun _ => rfl⟩
  · intro p hq
    have hproj : projectedPositions sqrt BOLTZ self n c =
        p n c.atomCoordinates (trialPositions sqrt BOLTZ self n c)
          (inverseMassesAfter self n c) := by
      simp [projectedPositions, hq]
    refine ⟨hproj, ?_⟩
    intro i hi
    have hic : i < c.atomCoordinates.length := Nat.lt_of_lt_of_le hi hc
    have hiv : i < c.velocities.length := Nat.lt_of_lt_of_le hi hv
    have hip : i < (projectedPositions sqrt BOLTZ self n c).length := by
      rw [hlen]; exact Nat.lt_of_lt_of_le hi hx
    have hy := List.getElem?_eq_getElem hip
    refine ⟨_, _, _, ?_, List.getElem?_eq_getElem hic,
      updateAfter_atomCoordinates sqrt BOLTZ self n c i hi _ hy hic,
      updateAfter_velocities sqrt BOLTZ self n c i hi _ hy hic hiv, ?_⟩
    · simp only [updateAfter]
      rw [← hproj]
      exact hy
    · intro j
      simp only [velocityVec, velocityScale]
      exact RealOpenMM.mul_comm_val _ _
  · intro hnone
    have hproj := projectedPositions_none sqrt BOLTZ self n c hnone
    refine ⟨hproj, ?_⟩
    intro i hi
    have hic : i < c.atomCoordinates.length := Nat.lt_of_lt_of_le hi hc
    have hip : i < (projectedPositions sqrt BOLTZ self n c).length := by
      rw [hlen]; exact Nat.lt_of_lt_of_le hi hx
    have hy := List.getElem?_eq_getElem hip
    rw [updateAfter_atomCoordinates sqrt BOLTZ self n c i hi _ hy hic, ← hy, hproj]

/-- C11 at the example integrator with a projector attached: its hypotheses hold there. -/
theorem C11_projector_commit_witness :
    Sized projectedDynamics 2 exampleCaller ∧ ProjectorInPlace projectedDynamics ∧
    ∃ r trial, update sqrtQ (val 1) projectedDynamics 2 exampleCaller = some r ∧
      (∀ i, i < 2 → ∃ x x0 f im, trial[i]? = some x ∧
        exampleCaller.atomCoordinates[i]? = some x0 ∧
        exampleCaller.forces[i]? = some f ∧ r.dynamics.inverseMasses[i]? = some im ∧
        ∀ j : Fin 3, x j =
          x0 j + projectedDynamics.getDeltaT / projectedDynamics.getFriction * im * f j +
            sqrtWith sqrtQ
                (two * val 1 * projectedDynamics.getTemperature * projectedDynamics.getDeltaT /
                  projectedDynamics.getFriction) *
              SQRT sqrtQ im *
              exampleCaller.random.stream (exampleCaller.random.position + 3 * i + j.val)) ∧
      (∀ p, projectedDynamics.getReferenceConstraintAlgorithm = some p →
        r.dynamics.xPrime = p 2 exampleCaller.atomCoordinates trial r.dynamics.inverseMasses ∧
        ∀ i, i < 2 → ∃ y x0 v,
          (p 2 exampleCaller.atomCoordinates trial r.dynamics.inverseMasses)[i]? = some y ∧
          exampleCaller.atomCoordinates[i]? = some x0 ∧
          r.caller.atomCoordinates[i]? = some y ∧
          r.caller.velocities[i]? = some v ∧
          ∀ j, v j = (y j - x0 j) * (one / projectedDynamics.getDeltaT)) ∧
      (projectedDynamics.getReferenceConstraintAlgorithm = none →
        r.dynamics.xPrime = trial ∧
        ∀ i, i < 2 → r.caller.atomCoordinates[i]? = trial[i]?) :=
  have hs : Sized projectedDynamics 2 exampleCaller := by
    simp [Sized, projectedDynamics, exampleDynamics, exampleCaller]
  have hp : ProjectorInPlace projectedDynamics := by
    intro p hq k a x m
    simp only [projectedDynamics, attach_getReferenceConstraintAlgorithm,
      Option.some.injEq] at hq
    subst hq
    simp [moveToOnes]
  ⟨hs, hp, C11_projector_commit sqrtQ (val 1) projectedDynamics 2 exampleCaller hs hp⟩

/-- C12: constructing the integrator always succeeds; it emits exactly one diagnostic when the
supplied friction is `<= 0` and none when it is `> 0`; the integrator it yields has a positive
friction and buffers of `numberOfAtoms` entries, and `update` returns on it for every caller
whose arrays hold `numberOfAtoms` entries. -/
theorem C12_construction_diagnostic (sqrt : R → R) (BOLTZ : RealOpenMM R) (numberOfAtoms : Nat)
    (deltaT temperature : RealOpenMM R) (friction : R) (log : Log R) :
    (∃ message, (ctor numberOfAtoms deltaT (val friction) temperature log).2 =
      if friction ≤ 0 then log ++ [message] else log) ∧
    (∃ f : R, (ctor numberOfAtoms deltaT (val friction) temperature log).1.getFriction = val f ∧
      0 < f) ∧
    (ctor numberOfAtoms deltaT (val friction) temperature log).1.xPrime.length = numberOfAtoms ∧
    (ctor numberOfAtoms deltaT (val friction) temperature log).1.inverseMasses.length =
      numberOfAtoms ∧
    ∀ c : Caller R, numberOfAtoms ≤ c.atomCoordinates.length →
      numberOfAtoms ≤ c.velocities.length → numberOfAtoms ≤ c.forces.length →
      numberOfAtoms ≤ c.masses.length →
      ∃ r, update sqrt BOLTZ (ctor numberOfAtoms deltaT (val friction) temperature log).1
        numberOfAtoms c = some r := by
  refine ⟨⟨[.text ("\nReferenceBrownianDynamics::ReferenceBrownianDynamics"),
      .text (" input frction value="), .real (val friction),
      .text (" is invalid -- setting to 1.")], ?_⟩,
    ctor_friction_pos numberOfAtoms deltaT temperature friction log, by simp, by simp, ?_⟩
  · rw [ctor_snd]
    by_cases h : friction ≤ 0
    · simp only [zero, le_val_val, h, decide_True, if_true, printError]
    · simp [zero, h]
  · intro c h1 h2 h3 h4
    exact ⟨_, update_eq_of_sized sqrt BOLTZ _ numberOfAtoms c
      ⟨h1, h2, h3, h4, by simp, by simp⟩
      (projectorInPlace_of_none _ (by simp))⟩

/-- C12 at the friction `-3`: one diagnostic is emitted, and `update` returns on the
integrator for the example caller. -/
theorem C12_construction_diagnostic_witness :
    (2 ≤ exampleCaller.atomCoordinates.length ∧ 2 ≤ exampleCaller.velocities.length ∧
      2 ≤ exampleCaller.forces.length ∧ 2 ≤ exampleCaller.masses.length) ∧
    (∃ message, (ctor 2 (val (1 / 2)) (val (-3 : ℚ)) (val 0) []).2 =
      if (-3 : ℚ) ≤ 0 then [] ++ [message] else []) ∧
    ∃ r, update sqrtQ (val 1) (ctor 2 (val (1 / 2)) (val (-3 : ℚ)) (val 0) []).1 2
      exampleCaller = some r :=
  have h : 2 ≤ exampleCaller.atomCoordinates.length ∧ 2 ≤ exampleCaller.velocities.length ∧
      2 ≤ exampleCaller.forces.length ∧ 2 ≤ exampleCaller.masses.length := by
    simp [exampleCaller]
  ⟨h, (C12_construction_diagnostic sqrtQ (val 1) 2 (val (1 / 2)) (val 0) (-3) []).1,
    (C12_construction_diagnostic sqrtQ (val 1) 2 (val (1 / 2)) (val 0) (-3) []).2.2.2.2
      exampleCaller h.1 h.2.1 h.2.2.1 h.2.2.2⟩

/-- C13, as stated, fails for a supplied friction that is not a number: the test
`friction <= zero` of line 63 is false for it, so the constructor keeps it, with no
diagnostic, and the friction of the integrator is not a positive number. -/
theorem C13_counterexample_nan_friction :
    (ctor 1 (val 1) (undef : RealOpenMM ℚ) (val 0) []).1.getFriction = undef ∧
    (ctor 1 (val 1) (undef : RealOpenMM ℚ) (val 0) []).2 = [] ∧
    ¬ ∃ f : ℚ, (ctor 1 (val 1) (undef : RealOpenMM ℚ) (val 0) []).1.getFriction = val f ∧
      0 < f := by
  have h : (ctor 1 (val 1) (undef : RealOpenMM ℚ) (val 0) []).1.getFriction = undef := by
    simp [getFriction]
  refine ⟨h, ?_, ?_⟩
  · rw [ctor_snd]
    simp
  · rintro ⟨f, hf, _⟩
    rw [h] at hf
    cases hf

/-- C13 (amended): the friction is positive right after construction, whatever number was
supplied as friction; every `update` call that returns leaves the friction, the time step and
the temperature as they were; so the friction is positive, and the time step and temperature
are those of the construction, after any number of `update` calls, and in every state reachable
from a construction with numbers. -/
theorem C13_friction_positive (sqrt : R → R) (BOLTZ : RealOpenMM R) :
    (∀ (numberOfAtoms : Nat) (deltaT temperature : RealOpenMM R) (friction : R) (log : Log R),
      ∃ f : R, (ctor numberOfAtoms deltaT (val friction) temperature log).1.getFriction =
        val f ∧ 0 < f) ∧
    (∀ (self : ReferenceBrownianDynamics R) (n : Nat) (c : Caller R) (r : UpdateResult R),
      update sqrt BOLTZ self n c = some r →
      r.dynamics.getFriction = self.getFriction ∧ r.dynamics.getDeltaT = self.getDeltaT ∧
        r.dynamics.getTemperature = self.getTemperature) ∧
    (∀ (numberOfAtoms : Nat) (deltaT temperature : RealOpenMM R) (friction : R) (log : Log R)
      (p : Option (ReferenceConstraintAlgorithm R)) (calls : List (Nat × Caller R))
      (last : ReferenceBrownianDynamics R),
      updateSeq sqrt BOLTZ
        ((ctor numberOfAtoms deltaT (val friction) temperature log).1.attach p) calls =
          some last →
      (∃ f : R, last.getFriction = val f ∧ 0 < f) ∧ last.getDeltaT = deltaT ∧
        last.getTemperature = temperature) ∧
    (∀ self : ReferenceBrownianDynamics R, Reachable sqrt BOLTZ self →
      ∃ f : R, self.getFriction = val f ∧ 0 < f) := by
  refine ⟨ctor_friction_pos, ?_, ?_, ?_⟩
  · intro self n c r h
    obtain ⟨hf, hb, _⟩ := update_some_fields sqrt BOLTZ self n c r h
    exact ⟨hf, by simp only [ReferenceDynamics.getDeltaT, hb,
      ReferenceDynamics.incrementTimeStep], by simp only [ReferenceDynamics.getTemperature, hb,
      ReferenceDynamics.incrementTimeStep]⟩
  · intro numberOfAtoms deltaT temperature friction log p calls last h
    obtain ⟨h1, h2, h3⟩ := updateSeq_some_fields sqrt BOLTZ calls _ last h
    obtain ⟨f, hf, hpos⟩ := ctor_friction_pos numberOfAtoms deltaT temperature friction log
    refine ⟨⟨f, ?_, hpos⟩, ?_, ?_⟩
    · rw [h1]; exact hf
    · rw [h2]; simp
    · rw [h3]; simp
  · intro self h
    exact (wellFormed_of_reachable sqrt BOLTZ self h).1

/-- C13 at the example integrator: `update` returns there and keeps the friction, the time
step and the temperature. -/
theorem C13_friction_positive_witness :
    update sqrtQ (val 1) exampleDynamics 2 exampleCaller =
      some (updateAfter sqrtQ (val 1) exampleDynamics 2 exampleCaller) ∧
    (updateAfter sqrtQ (val 1) exampleDynamics 2 exampleCaller).dynamics.getFriction =
      exampleDynamics.getFriction ∧
    (updateAfter sqrtQ (val 1) exampleDynamics 2 exampleCaller).dynamics.getDeltaT =
      exampleDynamics.getDeltaT ∧
    (updateAfter sqrtQ (val 1) exampleDynamics 2 exampleCaller).dynamics.getTemperature =
      exampleDynamics.getTemperature :=
  have h : update sqrtQ (val 1) exampleDynamics 2 exampleCaller =
      some (updateAfter sqrtQ (val 1) exampleDynamics 2 exampleCaller) :=
    update_eq_of_sized sqrtQ (val 1) exampleDynamics 2 exampleCaller
      (by simp [Sized, exampleDynamics, exampleCaller])
      (projectorInPlace_of_none _ (by simp [exampleDynamics]))
  ⟨h, (C13_friction_positive sqrtQ (val 1)).2.1 exampleDynamics 2 exampleCaller _ h⟩

/-- C14, as stated, fails in two ways for a particle of mass 0 on the first `update` call of a
fresh integrator: at the time step 0 its velocity has no value, so it is not zero; and at the
temperature -1 (time step 1) the noise amplitude is the square root of a negative number, so
its coordinate has no value and is not the coordinate before the call. -/
theorem C14_counterexample_zero_deltaT_negative_radicand :
    (∃ r, update sqrtQ (val 1) zeroStepDynamics 1 zeroMassCaller = some r ∧
      ∃ v, r.caller.velocities[0]? = some v ∧ v 0 ≠ zero) ∧
    (∃ r, update sqrtQ (val 1) negativeTemperatureDynamics 1 zeroMassCaller = some r ∧
      ∃ x x0, r.caller.atomCoordinates[0]? = some x ∧
        zeroMassCaller.atomCoordinates[0]? = some x0 ∧ x 0 ≠ x0 0) := by
  have hinv : massInvalid zeroMassCaller.masses 0 = true := by
    simp [massInvalid, zeroMassCaller, zero]
  constructor
  · have hn : zeroStepDynamics.getReferenceConstraintAlgorithm = none := by
      simp [zeroStepDynamics]
    have hs : Sized zeroStepDynamics 1 zeroMassCaller := by
      simp [Sized, zeroStepDynamics, zeroMassCaller]
    have him : (inverseMassesAfter zeroStepDynamics 1 zeroMassCaller)[0]? = some zero := by
      rw [inverseMassesAfter_getElem? _ _ _ 0 (by decide) (by simp [zeroStepDynamics])]
      simp [invertedMass, hinv, zeroStepDynamics]
    obtain ⟨_, hvel⟩ := updateAfter_coordinates_none sqrtQ (val 1) zeroStepDynamics 1
      zeroMassCaller hs hn 0 (by decide) (vec3 1 2 3) (vec3 1 1 1) zero rfl rfl him
    refine ⟨_, update_eq_of_sized sqrtQ (val 1) zeroStepDynamics 1 zeroMassCaller hs
      (projectorInPlace_of_none _ hn), _, hvel, ?_⟩
    simp [velocityVec, velocityScale, zeroStepDynamics, one, zero]
  · have hn : negativeTemperatureDynamics.getReferenceConstraintAlgorithm = none := by
      simp [negativeTemperatureDynamics]
    have hs : Sized negativeTemperatureDynamics 1 zeroMassCaller := by
      simp [Sized, negativeTemperatureDynamics, zeroMassCaller]
    have him : (inverseMassesAfter negativeTemperatureDynamics 1 zeroMassCaller)[0]? =
        some zero := by
      rw [inverseMassesAfter_getElem? _ _ _ 0 (by decide)
        (by simp [negativeTemperatureDynamics])]
      simp [invertedMass, hinv, negativeTemperatureDynamics]
    obtain ⟨hcoord, _⟩ := updateAfter_coordinates_none sqrtQ (val 1)
      negativeTemperatureDynamics 1 zeroMassCaller hs hn 0 (by decide) (vec3 1 2 3)
      (vec3 1 1 1) zero rfl rfl him
    have hfr : negativeTemperatureDynamics.getFriction = val 1 := by
      simp [negativeTemperatureDynamics, getFriction, zero]
    have hna : noiseAmplitude sqrtQ (val 1) negativeTemperatureDynamics = undef := by
      have hneg : (2 * 1 * (-1) * 1 / 1 : ℚ) < 0 := by norm_num
      have hone : (1 : ℚ) ≠ 0 := one_ne_zero
      rw [noiseAmplitude, hfr]
      simp only [negativeTemperatureDynamics, ctor_getTemperature, ctor_getDeltaT, two,
        val_mul_val, val_div_val_of_ne _ _ hone, sqrtWith_val, hneg, if_true]
    refine ⟨_, update_eq_of_sized sqrtQ (val 1) negativeTemperatureDynamics 1 zeroMassCaller hs
      (projectorInPlace_of_none _ hn), _, _, hcoord, rfl, ?_⟩
    simp [trialVec, hna, vec3, zeroMassCaller]

/-- C14 (amended): on the first `update` call of a freshly constructed integrator (any time
step, friction and temperature), a particle `i` whose mass is a number `<= 0` keeps the inverse
mass 0, and on every axis `j` its coordinate after the step is `coordinates_before[i][j] +
(deltaT/friction) * 0 * forces[i][j] + sqrt(2*kB*temperature*deltaT/friction) * sqrt(0) * z`
(`z` the sample at position `3*i + j` of the step, `friction` the value of `getFriction()`)
and its velocity `(1.0/deltaT) * (coordinates_after[i][j] - coordinates_before[i][j])`. When
`deltaT/friction`, the noise amplitude `sqrt(2*kB*temperature*deltaT/friction)`, the
coordinate, the force component and the sample `z` are numbers, the coordinate is unchanged;
when moreover `1.0/deltaT` is a number, the velocity component is zero. -/
theorem C14_invalid_mass_particle_at_rest (sqrt : R → R)
    (BOLTZ deltaT friction temperature : RealOpenMM R) (m : R)
    (numberOfAtoms : Nat) (log : Log R) (c : Caller R) (i : Nat) (x0 F : RealVec R)
    (hsqrt : sqrt 0 = 0)
    (hs : Sized (ctor numberOfAtoms deltaT friction temperature log).1 numberOfAtoms c)
    (hi : i < numberOfAtoms)
    (hm : c.masses[i]? = some (val m)) (hm0 : m ≤ 0)
    (hx0 : c.atomCoordinates[i]? = some x0) (hF : c.forces[i]? = some F) :
    ∃ r v x1, update sqrt BOLTZ (ctor numberOfAtoms deltaT friction temperature log).1
        numberOfAtoms c = some r ∧
      r.dynamics.inverseMasses[i]? = some zero ∧
      r.caller.velocities[i]? = some v ∧ r.caller.atomCoordinates[i]? = some x1 ∧
      ∀ j : Fin 3,
        x1 j = x0 j + deltaT / r.dynamics.getFriction * zero * F j +
            sqrtWith sqrt (two * BOLTZ * temperature * deltaT / r.dynamics.getFriction) *
              SQRT sqrt zero * c.random.stream (c.random.position + 3 * i + j.val) ∧
        v j = one / deltaT * (x1 j - x0 j) ∧
        ∀ s a y g z, deltaT / r.dynamics.getFriction = val s →
          sqrtWith sqrt (two * BOLTZ * temperature * deltaT / r.dynamics.getFriction) = val a →
          x0 j = val y → F j = val g →
          c.random.stream (c.random.position + 3 * i + j.val) = val z →
          x1 j = x0 j ∧ ∀ w, one / deltaT = val w → v j = zero := by
  have hnone : (ctor numberOfAtoms deltaT friction temperature log).1.getReferenceConstraintAlgorithm
      = none := by simp
  have hp := projectorInPlace_of_none _ hnone
  have hinv : massInvalid c.masses i = true := by
    simp [massInvalid, List.getD, hm, zero, hm0]
  have him : (inverseMassesAfter (ctor numberOfAtoms deltaT friction temperature log).1
      numberOfAtoms c)[i]? = some zero := by
    rw [inverseMassesAfter_getElem? _ _ _ i hi (by simpa using hi)]
    simp [invertedMass, hinv]
  obtain ⟨hcoord, hvel⟩ := updateAfter_coordinates_none sqrt BOLTZ _ numberOfAtoms c hs hnone
    i hi x0 F zero hx0 hF him
  have hfr : (updateAfter sqrt BOLTZ (ctor numberOfAtoms deltaT friction temperature log).1
      numberOfAtoms c).dynamics.getFriction =
      (ctor numberOfAtoms deltaT friction temperature log).1.getFriction := rfl
  refine ⟨_, _, _, update_eq_of_sized sqrt BOLTZ _ numberOfAtoms c hs hp, him, hvel, hcoord, ?_⟩
  intro j
  rw [hfr]
  refine ⟨?_, ?_, ?_⟩
  · simp only [trialVec, forceScale, noiseAmplitude, ctor_getDeltaT, ctor_getTemperature]
  · simp only [velocityVec, velocityScale, ctor_getDeltaT]
  · intro s a y g z hfs hna hy hg hz
    have hx1 : trialVec sqrt (forceScale (ctor numberOfAtoms deltaT friction temperature log).1)
        (noiseAmplitude sqrt BOLTZ (ctor numberOfAtoms deltaT friction temperature log).1)
        x0 F zero c.random.stream (c.random.position + 3 * i) j = x0 j := by
      simp only [trialVec, forceScale, noiseAmplitude, ctor_getDeltaT, ctor_getTemperature]
      rw [hfs, hna, hy, hg, hz]
      simp [zero, SQRT, hsqrt]
    refine ⟨hx1, ?_⟩
    intro w hw
    simp only [velocityVec, velocityScale, ctor_getDeltaT]
    rw [hx1, hw, hy]
    simp [zero]

/-- The amended C14 at a one-particle integrator with temperature 3 and a particle of mass 0
at `(1, 2, 3)` with the force `(1, 1, 1)`: its hypotheses hold there, and the particle stays
at `(1, 2, 3)` with velocity zero. -/
theorem C14_invalid_mass_particle_at_rest_witness :
    sqrtQ 0 = 0 ∧
    Sized (ctor 1 (val (1 / 2)) (val 1) (val 3) []).1 1 zeroMassCaller ∧
    0 < 1 ∧ zeroMassCaller.masses[0]? = some (val 0) ∧ (0 : ℚ) ≤ 0 ∧
    zeroMassCaller.atomCoordinates[0]? = some (vec3 1 2 3) ∧
    zeroMassCaller.forces[0]? = some (vec3 1 1 1) ∧
    ∃ r v x1, update sqrtQ (val 1) (ctor 1 (val (1 / 2)) (val 1) (val 3) []).1 1
        zeroMassCaller = some r ∧
      r.dynamics.inverseMasses[0]? = some zero ∧
      r.caller.velocities[0]? = some v ∧ r.caller.atomCoordinates[0]? = some x1 ∧
      ∀ j : Fin 3, x1 j = (vec3 1 2 3 : RealVec ℚ) j ∧ v j = zero := by
  have h1 : Sized (ctor 1 (val (1 / 2 : ℚ)) (val 1) (val 3) []).1 1 zeroMassCaller := by
    simp [Sized, zeroMassCaller]
  refine ⟨sqrtQ_zero, h1, by decide, rfl, le_refl 0, rfl, rfl, ?_⟩
  obtain ⟨r, v, x1, hu, him, hv, hx, h⟩ :=
    C14_invalid_mass_particle_at_rest sqrtQ (val 1) (val (1 / 2)) (val 1) (val 3) 0 1 []
      zeroMassCaller 0 (vec3 1 2 3) (vec3 1 1 1) sqrtQ_zero h1 (by decide) rfl
      (le_refl 0) rfl rfl
  refine ⟨r, v, x1, hu, him, hv, hx, ?_⟩
  intro j
  obtain ⟨_, _, hrest⟩ := h j
  have hfr : r.dynamics.getFriction = val 1 := by
    obtain ⟨hf, _⟩ := update_some_fields sqrtQ (val 1) _ 1 zeroMassCaller r hu
    rw [getFriction, hf]
    simp [zero]
  obtain ⟨y, hy⟩ := (RealOpenMM.isVal_iff _).mp (isVal_vec3 1 2 3 j)
  obtain ⟨g, hg⟩ := (RealOpenMM.isVal_iff _).mp (isVal_vec3 1 1 1 j)
  have h2 : (1 / 2 : ℚ) ≠ 0 := by norm_num
  have h3 : (1 : ℚ) ≠ 0 := one_ne_zero
  have hrad : (0 : ℚ) ≤ 2 * 1 * 3 * (1 / 2) / 1 := by norm_num
  obtain ⟨hx1, hv1⟩ := hrest ((1 / 2) / 1) (sqrtQ (2 * 1 * 3 * (1 / 2) / 1)) y g 1
    (by rw [hfr, val_div_val_of_ne _ _ h3])
    (by rw [hfr, two, val_mul_val, val_mul_val, val_mul_val, val_div_val_of_ne _ _ h3,
      sqrtWith_val_of_nonneg sqrtQ _ hrad])
    hy hg rfl
  exact ⟨hx1, hv1 (1 / (1 / 2)) (by rw [one, val_div_val_of_ne _ _ h2])⟩

/-- C15: for every particle count, right after construction the inverse-mass table and the
trial-position buffer have exactly `numberOfAtoms` entries, every entry and every component
is zero, and the step counter is 0. -/
theorem C15_buffers_after_construction (numberOfAtoms : Nat)
    (deltaT friction temperature : RealOpenMM R) (log : Log R) :
    (ctor numberOfAtoms deltaT friction temperature log).1.inverseMasses =
        List.replicate numberOfAtoms zero ∧
      (ctor numberOfAtoms deltaT friction temperature log).1.xPrime =
        List.replicate numberOfAtoms (fun _ => zero) ∧
      (ctor numberOfAtoms deltaT friction temperature log).1.inverseMasses.length =
        numberOfAtoms ∧
      (ctor numberOfAtoms deltaT friction temperature log).1.xPrime.length = numberOfAtoms ∧
      (ctor numberOfAtoms deltaT friction temperature log).1.getTimeStep = 0 := by
  refine ⟨ctor_inverseMasses _ _ _ _ _, ctor_xPrime _ _ _ _ _, ?_, ?_, ctor_getTimeStep _ _ _ _ _⟩
  · simp
  · simp

/-- C16: `update` does not modify its `forces` and `masses` arguments: within the caller's
contract it returns, on the first call or a later one, with valid masses or not, and both
arrays are then what they were before the call; and whenever `update` returns they are. -/
theorem C16_forces_and_masses_kept (sqrt : R → R) (BOLTZ : RealOpenMM R)
    (self : ReferenceBrownianDynamics R) (n : Nat) (c : Caller R)
    (hs : Sized self n c) (hp : ProjectorInPlace self) :
    (∃ r, update sqrt BOLTZ self n c = some r ∧ r.caller.forces = c.forces ∧
      r.caller.masses = c.masses) ∧
    ∀ (other : ReferenceBrownianDynamics R) (k : Nat) (c2 : Caller R) (r : UpdateResult R),
      update sqrt BOLTZ other k c2 = some r →
      r.caller.forces = c2.forces ∧ r.caller.masses = c2.masses := by
  refine ⟨⟨_, update_eq_of_sized sqrt BOLTZ self n c hs hp, rfl, rfl⟩, ?_⟩
  intro other k c2 r h
  obtain ⟨_, _, h1, h2, _⟩ := update_some_fields sqrt BOLTZ other k c2 r h
  exact ⟨h1, h2⟩

/-- C16 at the example integrator with the masses `[2, 0]`: its hypotheses hold there. -/
theorem C16_forces_and_masses_kept_witness :
    Sized exampleDynamics 2 invalidMassCaller ∧ ProjectorInPlace exampleDynamics ∧
    (∃ r, update sqrtQ (val 1) exampleDynamics 2 invalidMassCaller = some r ∧
      r.caller.forces = invalidMassCaller.forces ∧
      r.caller.masses = invalidMassCaller.masses) ∧
    ∀ (other : ReferenceBrownianDynamics ℚ) (k : Nat) (c2 : Caller ℚ) (r : UpdateResult ℚ),
      update sqrtQ (val 1) other k c2 = some r →
      r.caller.forces = c2.forces ∧ r.caller.masses = c2.masses :=
  have hs : Sized exampleDynamics 2 invalidMassCaller := by
    simp [Sized, exampleDynamics, invalidMassCaller, exampleCaller]
  have hp : ProjectorInPlace exampleDynamics :=
    projectorInPlace_of_none _ (by simp [exampleDynamics])
  ⟨hs, hp, C16_forces_and_masses_kept sqrtQ (val 1) exampleDynamics 2 invalidMassCaller hs hp⟩

/-- C17: when the integrator was constructed with `numberOfAtoms = n`, a constraint projector
that rewrites in place is attached or none is, and every `update` call passes `n` and four
arrays of length `n`, then every access of every call is in range: the sequence of calls
returns, the two buffers keep their `n` entries, and each single call of the sequence
returns. -/
theorem C17_accesses_in_range (sqrt : R → R) (BOLTZ : RealOpenMM R) (n : Nat)
    (deltaT friction temperature : RealOpenMM R) (log : Log R)
    (p : Option (ReferenceConstraintAlgorithm R)) (calls : List (Nat × Caller R))
    (hp : ∀ q, p = some q → ∀ k a x m, (q k a x m).length = x.length)
    (hcalls : ∀ call, call ∈ calls → call.1 = n ∧ call.2.atomCoordinates.length = n ∧
      call.2.velocities.length = n ∧ call.2.forces.length = n ∧ call.2.masses.length = n) :
    (∃ last, updateSeq sqrt BOLTZ ((ctor n deltaT friction temperature log).1.attach p) calls =
        some last ∧
      last.xPrime.length = n ∧ last.inverseMasses.length = n) ∧
    ∀ (earlier later : List (Nat × Caller R)) (call : Nat × Caller R),
      calls = earlier ++ call :: later →
      ∃ before r,
        updateSeq sqrt BOLTZ ((ctor n deltaT friction temperature log).1.attach p) earlier =
          some before ∧
        update sqrt BOLTZ before call.1 call.2 = some r := by
  have hp2 : ProjectorInPlace ((ctor n deltaT friction temperature log).1.attach p) := by
    intro q hq
    rw [attach_getReferenceConstraintAlgorithm] at hq
    exact hp q hq
  have hs : ∀ call, call ∈ calls →
      Sized ((ctor n deltaT friction temperature log).1.attach p) call.1 call.2 := by
    intro call hcall
    obtain ⟨h0, h1, h2, h3, h4⟩ := hcalls call hcall
    refine ⟨?_, ?_, ?_, ?_, ?_, ?_⟩ <;> simp [h0, h1, h2, h3, h4]
  constructor
  · obtain ⟨last, hlast, hx, hm, _⟩ := updateSeq_lengths sqrt BOLTZ calls _ hp2 hs
    refine ⟨last, hlast, ?_, ?_⟩
    · rw [hx]; simp
    · rw [hm]; simp
  · intro earlier later call hsplit
    obtain ⟨before, hbefore, hx, hm, hq⟩ := updateSeq_lengths sqrt BOLTZ earlier _ hp2
      (fun k hk => hs k (by rw [hsplit]; exact List.mem_append_left _ hk))
    have hcall : call ∈ calls := by
      rw [hsplit]
      exact List.mem_append_right _ (List.mem_cons_self call later)
    obtain ⟨h1, h2, h3, h4, h5, h6⟩ := hs call hcall
    have hp3 : ProjectorInPlace before := by
      intro q hq2
      rw [hq] at hq2
      exact hp2 q hq2
    exact ⟨before, _, hbefore, update_eq_of_sized sqrt BOLTZ before call.1 call.2
      ⟨h1, h2, h3, h4, by rw [hx]; exact h5, by rw [hm]; exact h6⟩ hp3⟩

/-- C17 at the example integrator, for two calls with arrays of length 2: its hypotheses hold
there. -/
theorem C17_accesses_in_range_witness :
    (∀ q, (none : Option (ReferenceConstraintAlgorithm ℚ)) = some q →
      ∀ k a x m, (q k a x m).length = x.length) ∧
    (∀ call, call ∈ [(2, invalidMassCaller), (2, exampleCaller)] →
      call.1 = 2 ∧ call.2.atomCoordinates.length = 2 ∧
      call.2.velocities.length = 2 ∧ call.2.forces.length = 2 ∧ call.2.masses.length = 2) ∧
    (∃ last, updateSeq sqrtQ (val 1)
        ((ctor 2 (val (1 / 2)) (val 1) (val 0) []).1.attach none)
        [(2, invalidMassCaller), (2, exampleCaller)] = some last ∧
      last.xPrime.length = 2 ∧ last.inverseMasses.length = 2) ∧
    ∀ (earlier later : List (Nat × Caller ℚ)) (call : Nat × Caller ℚ),
      [(2, invalidMassCaller), (2, exampleCaller)] = earlier ++ call :: later →
      ∃ before r,
        updateSeq sqrtQ (val 1) ((ctor 2 (val (1 / 2)) (val 1) (val 0) []).1.attach none)
          earlier = some before ∧
        update sqrtQ (val 1) before call.1 call.2 = some r :=
  have hp : ∀ q, (none : Option (ReferenceConstraintAlgorithm ℚ)) = some q →
      ∀ k a x m, (q k a x m).length = x.length := by
    intro q hq
    cases hq
  have hcalls : ∀ call, call ∈ [(2, invalidMassCaller), (2, exampleCaller)] →
      call.1 = 2 ∧ call.2.atomCoordinates.length = 2 ∧
      call.2.velocities.length = 2 ∧ call.2.forces.length = 2 ∧
      call.2.masses.length = 2 := by
    intro call hcall
    simp only [List.mem_cons, List.mem_singleton, List.not_mem_nil, or_false] at hcall
    rcases hcall with rfl | rfl <;> simp [invalidMassCaller, exampleCaller]
  ⟨hp, hcalls, C17_accesses_in_range sqrtQ (val 1) 2 (val (1 / 2)) (val 1) (val 0) [] none
    [(2, invalidMassCaller), (2, exampleCaller)] hp hcalls⟩

/-- C19: with no constraint projector attached, the update of particle `i` depends on no
other particle: two runs of `update` from integrators that agree on friction, time step,
temperature, step counter and inverse-mass entry `i`, with inputs that agree on the
coordinates, the force, the mass and the three samples of particle `i`, give the same
`coordinates[i]` and `velocities[i]`. -/
theorem C19_particle_independence (sqrt : R → R) (BOLTZ : RealOpenMM R)
    (self1 self2 : ReferenceBrownianDynamics R) (n1 n2 : Nat) (c1 c2 : Caller R) (i : Nat)
    (hs1 : Sized self1 n1 c1) (hs2 : Sized self2 n2 c2) (hi1 : i < n1) (hi2 : i < n2)
    (hnone1 : self1.getReferenceConstraintAlgorithm = none)
    (hnone2 : self2.getReferenceConstraintAlgorithm = none)
    (hfriction : self1.getFriction = self2.getFriction)
    (hdeltaT : self1.getDeltaT = self2.getDeltaT)
    (htemperature : self1.getTemperature = self2.getTemperature)
    (hstep : self1.getTimeStep = self2.getTimeStep)
    (hinverse : self1.inverseMasses[i]? = self2.inverseMasses[i]?)
    (hcoordinates : c1.atomCoordinates[i]? = c2.atomCoordinates[i]?)
    (hforces : c1.forces[i]? = c2.forces[i]?) (hmasses : c1.masses[i]? = c2.masses[i]?)
    (hsamples : ∀ j : Fin 3, c1.random.stream (c1.random.position + 3 * i + j.val) =
      c2.random.stream (c2.random.position + 3 * i + j.val)) :
    ∃ r1 r2, update sqrt BOLTZ self1 n1 c1 = some r1 ∧ update sqrt BOLTZ self2 n2 c2 = some r2 ∧
      r1.caller.atomCoordinates[i]? = r2.caller.atomCoordinates[i]? ∧
      r1.caller.velocities[i]? = r2.caller.velocities[i]? ∧
      ∃ x v, r1.caller.atomCoordinates[i]? = some x ∧ r1.caller.velocities[i]? = some v := by
  have hp1 := projectorInPlace_of_none self1 hnone1
  have hp2 := projectorInPlace_of_none self2 hnone2
  have hic1 : i < c1.atomCoordinates.length := Nat.lt_of_lt_of_le hi1 hs1.1
  have hic2 : i < c2.atomCoordinates.length := Nat.lt_of_lt_of_le hi2 hs2.1
  have hif1 : i < c1.forces.length := Nat.lt_of_lt_of_le hi1 hs1.2.2.1
  have hif2 : i < c2.forces.length := Nat.lt_of_lt_of_le hi2 hs2.2.2.1
  have him1 : i < self1.inverseMasses.length := Nat.lt_of_lt_of_le hi1 hs1.2.2.2.2.2
  have him2 : i < self2.inverseMasses.length := Nat.lt_of_lt_of_le hi2 hs2.2.2.2.2.2
  have ex : c1.atomCoordinates[i] = c2.atomCoordinates[i] := by
    rw [List.getElem?_eq_getElem hic1, List.getElem?_eq_getElem hic2] at hcoordinates
    exact Option.some.inj hcoordinates
  have ef : c1.forces[i] = c2.forces[i] := by
    rw [List.getElem?_eq_getElem hif1, List.getElem?_eq_getElem hif2] at hforces
    exact Option.some.inj hforces
  have ei : self1.inverseMasses[i] = self2.inverseMasses[i] := by
    rw [List.getElem?_eq_getElem him1, List.getElem?_eq_getElem him2] at hinverse
    exact Option.some.inj hinverse
  have em : invertedMass c1.masses i self1.inverseMasses[i] =
      invertedMass c2.masses i self2.inverseMasses[i] := by
    simp only [invertedMass, massInvalid, List.getD_eq_getElem?_getD, hmasses, ei]
  have ea : (inverseMassesAfter self1 n1 c1)[i]? = (inverseMassesAfter self2 n2 c2)[i]? := by
    rw [inverseMassesAfter_getElem? self1 n1 c1 i hi1 him1,
      inverseMassesAfter_getElem? self2 n2 c2 i hi2 him2, hstep, em, ei]
  have ha1 := inverseMassesAfter_getElem? self1 n1 c1 i hi1 him1
  have ha2 := ha1
  rw [ea] at ha2
  obtain ⟨hco1, hve1⟩ := updateAfter_coordinates_none sqrt BOLTZ self1 n1 c1 hs1 hnone1 i hi1
    _ _ _ (List.getElem?_eq_getElem hic1) (List.getElem?_eq_getElem hif1) ha1
  obtain ⟨hco2, hve2⟩ := updateAfter_coordinates_none sqrt BOLTZ self2 n2 c2 hs2 hnone2 i hi2
    _ _ _ (List.getElem?_eq_getElem hic2) (List.getElem?_eq_getElem hif2) ha2
  have efs : forceScale self1 = forceScale self2 := by
    simp only [forceScale, hdeltaT, hfriction]
  have ena : noiseAmplitude sqrt BOLTZ self1 = noiseAmplitude sqrt BOLTZ self2 := by
    simp only [noiseAmplitude, hdeltaT, hfriction, htemperature]
  have evs : velocityScale self1 = velocityScale self2 := by
    simp only [velocityScale, hdeltaT]
  have etrial : ∀ im : RealOpenMM R,
      trialVec sqrt (forceScale self1) (noiseAmplitude sqrt BOLTZ self1) c1.atomCoordinates[i]
        c1.forces[i] im c1.random.stream (c1.random.position + 3 * i) =
      trialVec sqrt (forceScale self2) (noiseAmplitude sqrt BOLTZ self2) c2.atomCoordinates[i]
        c2.forces[i] im c2.random.stream (c2.random.position + 3 * i) := by
    intro im
    funext j
    simp only [trialVec, efs, ena, ex, ef, hsamples j]
  refine ⟨_, _, update_eq_of_sized sqrt BOLTZ self1 n1 c1 hs1 hp1,
    update_eq_of_sized sqrt BOLTZ self2 n2 c2 hs2 hp2, ?_, ?_, _, _, hco1, hve1⟩
  · rw [hco1, hco2, etrial]
  · rw [hve1, hve2, etrial, evs, ex]

/-- C19 at the example integrator, for particle 0 and two callers whose second particles
differ: its hypotheses hold there. -/
theorem C19_particle_independence_witness :
    Sized exampleDynamics 2 exampleCaller ∧ Sized exampleDynamics 2 otherParticleCaller ∧
    0 < 2 ∧ exampleDynamics.getReferenceConstraintAlgorithm = none ∧
    exampleCaller.atomCoordinates[0]? = otherParticleCaller.atomCoordinates[0]? ∧
    exampleCaller.forces[0]? = otherParticleCaller.forces[0]? ∧
    exampleCaller.masses[0]? = otherParticleCaller.masses[0]? ∧
    (∀ j : Fin 3, exampleCaller.random.stream (exampleCaller.random.position + 3 * 0 + j.val) =
      otherParticleCaller.random.stream
        (otherParticleCaller.random.position + 3 * 0 + j.val)) ∧
    ∃ r1 r2, update sqrtQ (val 1) exampleDynamics 2 exampleCaller = some r1 ∧
      update sqrtQ (val 1) exampleDynamics 2 otherParticleCaller = some r2 ∧
      r1.caller.atomCoordinates[0]? = r2.caller.atomCoordinates[0]? ∧
      r1.caller.velocities[0]? = r2.caller.velocities[0]? ∧
      ∃ x v, r1.caller.atomCoordinates[0]? = some x ∧ r1.caller.velocities[0]? = some v :=
  have h1 : Sized exampleDynamics 2 exampleCaller := by
    simp [Sized, exampleDynamics, exampleCaller]
  have h2 : Sized exampleDynamics 2 otherParticleCaller := by
    simp [Sized, exampleDynamics, otherParticleCaller]
  have h3 : exampleDynamics.getReferenceConstraintAlgorithm = none := by
    simp [exampleDynamics]
  have h4 : ∀ j : Fin 3,
      exampleCaller.random.stream (exampleCaller.random.position + 3 * 0 + j.val) =
        otherParticleCaller.random.stream
          (otherParticleCaller.random.position + 3 * 0 + j.val) := by
    intro j
    have hj : j.val < 3 := j.isLt
    simp [exampleCaller, otherParticleCaller, hj]
  ⟨h1, h2, by decide, h3, rfl, rfl, rfl, h4,
    C19_particle_independence sqrtQ (val 1) exampleDynamics exampleDynamics 2 2 exampleCaller
      otherParticleCaller 0 h1 h2 (by decide) (by decide) h3 h3 rfl rfl rfl rfl rfl rfl rfl rfl
      h4⟩

end Claims

end OpenMM
